import Mathlib

/-!
SimpleOS kernel core: a shallow embedding of `src/kernel.c`.

The embedding follows the C source function by function.

* Pointers, `uintptr_t` and `size_t` are 64-bit: they are natural numbers below `2 ^ 64`, and
  every addition or subtraction the C code performs on them is taken modulo `2 ^ 64`.
* Memory is a map from byte addresses to bytes; an `uintptr_t` store writes eight bytes,
  little-endian.
* The PCB table `processes[MAX_PROCESSES]` is a map from slot index to `Process`; the code only
  ever indexes it below `MAX_PROCESSES`.
* The `do ... while` loop of `schedule` may spin for ever, so it carries a fuel argument and
  returns `none` when the fuel runs out.
* The descriptor tables `gdt` and `idt` are maps from index to entry; a store into a field is
  cut to the width of the field.
* The terminal of `terminal.c` is its three statics and the cells of `VGA_BUFFER`; a `char` is
  an integer.
* Functions that are only declared in the sources (`isr0`, `isr1`, `load_gdt`, `load_idt`,
  `enable_paging`) are left out or taken as parameters; `register_interrupt_handler` is modelled
  from the specification.
-/

namespace SimpleOS

/-! ## Constants of `kernel.c` -/

/-- Width of a pointer, of `uintptr_t` and of `size_t`: `2 ^ 64`. -/
def WORD : Nat := 2 ^ 64

/-- Source constant `#define PAGE_SIZE 4096`. -/
def PAGE_SIZE : Nat := 4096

/-- Source constant `#define ENTRIES_PER_TABLE 512`. -/
def ENTRIES_PER_TABLE : Nat := 512

/-- Source global `uintptr_t* pml4 = (uintptr_t*)0x1000000`. -/
def pml4 : Nat := 0x1000000

/-- Source global `uintptr_t* pdpt = (uintptr_t*)0x1001000`. -/
def pdpt : Nat := 0x1001000

/-- Source global `uintptr_t* pd = (uintptr_t*)0x1002000`. -/
def pd : Nat := 0x1002000

/-- Source global `uintptr_t* pt = (uintptr_t*)0x1003000`. -/
def pt : Nat := 0x1003000

/-- Source constant `#define HEAP_START 0x2000000`. -/
def HEAP_START : Nat := 0x2000000

/-- Source constant `#define HEAP_SIZE 0x1000000`. -/
def HEAP_SIZE : Nat := 0x1000000

/-- Source global `uint8_t* heap_start = (uint8_t*)HEAP_START`. -/
def heap_start : Nat := HEAP_START

/-- Source global `uint8_t* heap_end = (uint8_t*)(HEAP_START + HEAP_SIZE)`. -/
def heap_end : Nat := HEAP_START + HEAP_SIZE

/-- Source constant `#define MAX_PROCESSES 10`. -/
def MAX_PROCESSES : Nat := 10

/-- The null pointer. -/
def NULL : Nat := 0

/-! ## Data model -/

/-- Source type `typedef struct { uintptr_t rsp; uintptr_t cr3; bool active; } Process;` -/
structure Process where
  rsp : Nat
  cr3 : Nat
  active : Bool
deriving DecidableEq, Repr

/-- Byte-addressed memory. -/
abbrev Memory := Nat → Nat

/-- The globals of `kernel.c` that the allocator, `create_process` and `schedule` touch,
together with memory and the two processor registers `schedule` reads and loads. -/
structure Kernel where
  /-- The global `heap_current` (initially `HEAP_START`). -/
  heap_current : Nat
  /-- The global `processes[MAX_PROCESSES]`. -/
  processes : Nat → Process
  /-- The global `int current_process` (initially `-1`). -/
  current_process : Int
  /-- Physical memory, one byte per address. -/
  mem : Memory
  /-- The processor's stack-pointer register. -/
  rsp : Nat
  /-- The processor's address-space register. -/
  cr3 : Nat

/-! ## Memory accesses -/

/-- Offset of byte address `x` from `a`, modulo `2 ^ 64`. -/
def offsetFrom (a x : Nat) : Nat := (x + (WORD - a % WORD)) % WORD

/-- An eight-byte little-endian store `*(uintptr_t*)a = v`. -/
def write64 (m : Memory) (a v : Nat) : Memory := fun x =>
  if x < WORD ∧ offsetFrom a x < 8 then v / 256 ^ offsetFrom a x % 256 else m x

/-- An eight-byte little-endian load `*(uintptr_t*)a`. -/
def read64 (m : Memory) (a : Nat) : Nat :=
  ((List.range 8).map fun k => m ((a + k) % WORD) % 256 * 256 ^ k).sum

/-! ## The bump allocator -/

/-- Source `kmalloc`:
```
if (heap_current + size > heap_end) return NULL;
void* result = heap_current; heap_current += size; return result;
```
The sum `heap_current + size` is a 64-bit pointer computation, hence taken modulo `2 ^ 64`. -/
def kmalloc (s : Kernel) (size : Nat) : Nat × Kernel :=
  if (s.heap_current + size) % WORD > heap_end then (NULL, s)
  else (s.heap_current, { s with heap_current := (s.heap_current + size) % WORD })

/-! ## Process creation -/

/-- The statement `*(--stack) = v`: the pointer drops by eight bytes, then the word is stored. -/
def push (st : Nat × Memory) (v : Nat) : Nat × Memory :=
  let sp := (st.1 + (WORD - 8)) % WORD
  (sp, write64 st.2 sp v)

/-- The inner loop `for (int j = 0; j < 7; j++) *(--stack) = 0;`, as a count of pushes. -/
def pushZeros : Nat → Nat × Memory → Nat × Memory
  | 0, st => st
  | n + 1, st => pushZeros n (push st 0)

/-- The body of the `if (!processes[i].active)` branch of `create_process`, for slot `i`. -/
def create_process_at (s : Kernel) (entry_point : Nat) (i : Nat) : Kernel :=
  let r := kmalloc s 4096
  let top := (r.1 + 4096) % WORD
  let st0 : Nat × Memory := (top, r.2.mem)
  let st1 := push st0 entry_point
  let st2 := push st1 0
  let st3 := pushZeros 7 st2
  { r.2 with
    processes := Function.update r.2.processes i { rsp := st3.1, cr3 := pml4, active := true }
    mem := st3.2 }

/-- The scan `for (int i = ...; i < MAX_PROCESSES; i++)` of `create_process`, with `n` slots
left to look at, starting at slot `i`. -/
def create_process_scan (s : Kernel) (entry_point : Nat) : Nat → Nat → Int × Kernel
  | 0, _ => (-1, s)
  | n + 1, i =>
    if !(s.processes i).active then ((i : Int), create_process_at s entry_point i)
    else create_process_scan s entry_point n (i + 1)

/-- Source `create_process`: returns the slot index, or `-1`. -/
def create_process (s : Kernel) (entry_point : Nat) : Int × Kernel :=
  create_process_scan s entry_point MAX_PROCESSES 0

/-! ## The scheduler -/

/-- The loop `do { current_process = (current_process + 1) % MAX_PROCESSES; }
while (!processes[current_process].active);` with `%` the truncating C remainder. -/
def scheduleLoop (procs : Nat → Process) : Nat → Int → Option Int
  | 0, _ => none
  | fuel + 1, c =>
    let c1 := Int.tmod (c + 1) (MAX_PROCESSES : Int)
    if (procs c1.toNat).active then some c1 else scheduleLoop procs fuel c1

/-- The first statement of `schedule`: `if (current_process != -1)` the stack-pointer register
is stored into `processes[current_process].rsp`. -/
def saveRsp (s : Kernel) : Nat → Process :=
  if s.current_process ≠ -1 then
    Function.update s.processes s.current_process.toNat
      { s.processes s.current_process.toNat with rsp := s.rsp }
  else s.processes

/-- Source `schedule`: save the stack pointer, advance the cursor to the next Active slot, load
`cr3` and `rsp` from the selected PCB. `none` when the loop has not ended within `fuel` turns. -/
def schedule (fuel : Nat) (s : Kernel) : Option Kernel :=
  let procs := saveRsp s
  match scheduleLoop procs fuel s.current_process with
  | none => none
  | some c =>
    some { s with
      processes := procs
      current_process := c
      cr3 := (procs c.toNat).cr3
      rsp := (procs c.toNat).rsp }

/-- The state `kernel_main` reaches before any allocation: the globals' initialisers, and
`init_scheduler` having cleared every `active` flag. -/
def initKernel (m : Memory) (rsp cr3 : Nat) : Kernel :=
  { heap_current := HEAP_START
    processes := fun _ => { rsp := 0, cr3 := 0, active := false }
    current_process := -1
    mem := m
    rsp := rsp
    cr3 := cr3 }

/-! ## The segment descriptor table -/

/-- Source type `struct gdt_entry`, packed: two 16-bit fields and four 8-bit fields. -/
structure gdt_entry where
  limit_low : Nat
  base_low : Nat
  base_middle : Nat
  access : Nat
  granularity : Nat
  base_high : Nat
deriving DecidableEq, Repr

/-- Source constant `#define GDT_ENTRIES 5`. -/
def GDT_ENTRIES : Nat := 5

/-- Source `gdt_set_gate(num, base, limit, access, gran)` on the table `gdt`. Each store is
cut to the width of the field it goes to (16 or 8 bits). -/
def gdt_set_gate (gdt : Nat → gdt_entry) (num base limit access gran : Nat) : Nat → gdt_entry :=
  Function.update gdt num
    { base_low := (base &&& 0xFFFF) % 2 ^ 16
      base_middle := ((base >>> 16) &&& 0xFF) % 2 ^ 8
      base_high := ((base >>> 24) &&& 0xFF) % 2 ^ 8
      limit_low := (limit &&& 0xFFFF) % 2 ^ 16
      granularity := (((limit >>> 16) &&& 0x0F) ||| (gran &&& 0xF0)) % 2 ^ 8
      access := access % 2 ^ 8 }

/-- Base address read back from the raw fields of a descriptor. -/
def gdt_entry.readBase (e : gdt_entry) : Nat :=
  e.base_low ||| (e.base_middle <<< 16) ||| (e.base_high <<< 24)

/-- Limit read back from the raw fields: `limit_low` and the low nibble of the granularity
byte. -/
def gdt_entry.readLimit (e : gdt_entry) : Nat :=
  e.limit_low ||| ((e.granularity &&& 0x0F) <<< 16)

/-- Granularity flags read back from the raw fields: the high nibble of the granularity
byte. -/
def gdt_entry.readFlags (e : gdt_entry) : Nat :=
  e.granularity &&& 0xF0

/-- Whole granularity byte as stored. -/
def gdt_entry.readGran (e : gdt_entry) : Nat :=
  e.granularity

/-! ## Paging -/

/-- The loop `for (int i = 0; i < ENTRIES_PER_TABLE; i++) pt[i] = (i * PAGE_SIZE) | 3;`
run for its first `n` turns. -/
def init_paging_loop (n : Nat) (m : Memory) : Memory :=
  (List.range n).foldl (fun mem i => write64 mem (pt + 8 * i) ((i * PAGE_SIZE) ||| 3)) m

/-- Source `init_paging`, up to the call of `enable_paging(pml4)`: the memory it leaves. -/
def init_paging (m : Memory) : Memory :=
  let m1 := init_paging_loop ENTRIES_PER_TABLE m
  let m2 := write64 m1 (pd + 8 * 0) (pt ||| 3)
  let m3 := write64 m2 (pdpt + 8 * 0) (pd ||| 3)
  write64 m3 (pml4 + 8 * 0) (pdpt ||| 3)

/-- Bit 0 of a paging entry: present. -/
def entryPresent (e : Nat) : Bool := e &&& 1 = 1

/-- Bit 1 of a paging entry: writable. -/
def entryWritable (e : Nat) : Bool := e &&& 2 = 2

/-- Bits 12..51 of a paging entry: the physical address of the frame or next table. -/
def entryFrame (e : Nat) : Nat := e &&& 0x000FFFFFFFFFF000

/-- Index into the table of the given level (0 = leaf table, 3 = top-level table) for
virtual address `a`: nine bits starting at bit `12 + 9 * level`. -/
def tableIndex (level a : Nat) : Nat := (a >>> (12 + 9 * level)) &&& 0x1FF

/-- The processor's 4-level walk of virtual address `a` from the top-level table at `root`
(what `enable_paging(pml4)` makes the processor do): every entry on the path must be present;
the result is the leaf frame plus the 12-bit page offset. -/
def translate (m : Memory) (root a : Nat) : Option Nat :=
  let e4 := read64 m (root + 8 * tableIndex 3 a)
  if !entryPresent e4 then none else
  let e3 := read64 m (entryFrame e4 + 8 * tableIndex 2 a)
  if !entryPresent e3 then none else
  let e2 := read64 m (entryFrame e3 + 8 * tableIndex 1 a)
  if !entryPresent e2 then none else
  let e1 := read64 m (entryFrame e2 + 8 * tableIndex 0 a)
  if !entryPresent e1 then none else
  some (entryFrame e1 + (a &&& 0xFFF))

/-- Whether every entry on the walk of `a` has the writable bit set. -/
def walkWritable (m : Memory) (root a : Nat) : Bool :=
  let e4 := read64 m (root + 8 * tableIndex 3 a)
  let e3 := read64 m (entryFrame e4 + 8 * tableIndex 2 a)
  let e2 := read64 m (entryFrame e3 + 8 * tableIndex 1 a)
  let e1 := read64 m (entryFrame e2 + 8 * tableIndex 0 a)
  entryWritable e4 && entryWritable e3 && entryWritable e2 && entryWritable e1

/-! ## Sequences of allocations -/

/-- Run `kmalloc` on each size in turn; the result lists, per call, the returned pointer and
the size asked for, and gives the final state. -/
def kmallocSeq : Kernel → List Nat → List (Nat × Nat) × Kernel
  | s, [] => ([], s)
  | s, size :: rest =>
    let r := kmalloc s size
    let t := kmallocSeq r.2 rest
    ((r.1, size) :: t.1, t.2)

/-- The calls of a run that succeeded (returned a non-null pointer). -/
def successes (l : List (Nat × Nat)) : List (Nat × Nat) :=
  l.filter fun p => p.1 ≠ NULL

/-- Two byte ranges `[p, p + n)` and `[q, q + k)` share a byte. -/
def overlaps (a b : Nat × Nat) : Bool :=
  decide (a.1 < b.1 + b.2 ∧ b.1 < a.1 + a.2)

/-- The byte range `[p, p + n)` lies inside `[heap_start, heap_end)`. -/
def insideHeap (a : Nat × Nat) : Bool :=
  decide (heap_start ≤ a.1 ∧ a.1 + a.2 ≤ heap_end)


/-! ## Example states -/

/-- The boot state: `heap_current = HEAP_START`, no PCB Active. -/
def bootKernel : Kernel := initKernel (fun _ => 0) 0x90000 0

/-- The boot state after the whole heap has been handed out: `heap_current = heap_end`, as
left by `kmalloc(HEAP_SIZE)`; every PCB slot still Inactive. -/
def heapExhausted : Kernel :=
  (kmalloc (initKernel (fun _ => 0) 0x90000 0) HEAP_SIZE).2

/-- The table of the worked example: slots 2, 5 and 7 Active, cursor at 5. -/
def table257 : Kernel :=
  { heap_current := HEAP_START
    processes := fun i => { rsp := 0x2001000 + 0x1000 * i, cr3 := pml4,
                            active := decide (i = 2 ∨ i = 5 ∨ i = 7) }
    current_process := 5
    mem := fun _ => 0
    rsp := 0x2005f00
    cr3 := pml4 }

/-- A table whose only Active slot is slot 3, which is the one running. -/
def tableOnly3 : Kernel :=
  { heap_current := HEAP_START + 0x4000
    processes := fun i => { rsp := 0x2001000 + 0x1000 * i, cr3 := pml4, active := decide (i = 3) }
    current_process := 3
    mem := fun _ => 0
    rsp := 0x2003f80
    cr3 := pml4 }

/-- A table with all ten slots Active. -/
def tableFull : Kernel :=
  { heap_current := HEAP_START + 0xa000
    processes := fun i => { rsp := 0x2000fb8 + 0x1000 * i, cr3 := pml4, active := true }
    current_process := 4
    mem := fun _ => 0
    rsp := 0x2004f00
    cr3 := pml4 }

/-- A table with slots 0 and 1 Active and the rest Inactive. -/
def tableTwo : Kernel :=
  { heap_current := HEAP_START + 0x2000
    processes := fun i => { rsp := 0x2000fb8 + 0x1000 * i, cr3 := pml4, active := decide (i < 2) }
    current_process := 1
    mem := fun _ => 0
    rsp := 0x2001f00
    cr3 := pml4 }

/-- An all-zero descriptor table. -/
def gdtZero : Nat → gdt_entry := fun _ =>
  { limit_low := 0, base_low := 0, base_middle := 0, access := 0, granularity := 0, base_high := 0 }

/-! ## The segment table as `init_gdt` leaves it -/

/-- Source type `struct gdt_ptr` (and `struct idt_ptr`, which has the same two fields): a
16-bit limit and the table address. -/
structure table_ptr where
  limit : Nat
  base : Nat
deriving DecidableEq, Repr

/-- Size in bytes of the packed `struct gdt_entry`: 2 + 2 + 1 + 1 + 1 + 1. -/
def sizeof_gdt_entry : Nat := 2 + 2 + 1 + 1 + 1 + 1

/-- The descriptor with all six fields 0. -/
def nullDescriptor : gdt_entry :=
  { limit_low := 0, base_low := 0, base_middle := 0, access := 0, granularity := 0, base_high := 0 }

/-- Source `init_gdt`, up to the call of `load_gdt`: the table and `gp` it leaves. `gdtAddr`
stands for `(uintptr_t)&gdt`. -/
def init_gdt (gdt : Nat → gdt_entry) (gdtAddr : Nat) : (Nat → gdt_entry) × table_ptr :=
  let gp : table_ptr := { limit := (sizeof_gdt_entry * GDT_ENTRIES - 1) % 2 ^ 16, base := gdtAddr }
  let g0 := gdt_set_gate gdt 0 0 0 0 0
  let g1 := gdt_set_gate g0 1 0 0xFFFFFFFF 0x9A 0xAF
  let g2 := gdt_set_gate g1 2 0 0xFFFFFFFF 0x92 0xCF
  let g3 := gdt_set_gate g2 3 0 0xFFFFFFFF 0xFA 0xAF
  let g4 := gdt_set_gate g3 4 0 0xFFFFFFFF 0xF2 0xCF
  (g4, gp)

/-! ## The interrupt descriptor table -/

/-- Source type `struct idt_entry`, packed: fields of 16, 16, 8, 8, 16, 32 and 32 bits. -/
structure idt_entry where
  offset_low : Nat
  selector : Nat
  ist : Nat
  type_attr : Nat
  offset_middle : Nat
  offset_high : Nat
  zero : Nat
deriving DecidableEq, Repr

/-- Source constant `#define IDT_ENTRIES 256`. -/
def IDT_ENTRIES : Nat := 256

/-- Size in bytes of the packed `struct idt_entry`: 2 + 2 + 1 + 1 + 2 + 4 + 4. -/
def sizeof_idt_entry : Nat := 2 + 2 + 1 + 1 + 2 + 4 + 4

/-- Source `idt_set_gate(num, base, sel, flags)` on the table `idt`. The parameter `num` is a
`uint8_t`, so the index is cut to 8 bits; each store is cut to the width of its field. -/
def idt_set_gate (idt : Nat → idt_entry) (num base sel flags : Nat) : Nat → idt_entry :=
  Function.update idt (num % 2 ^ 8)
    { offset_low := (base &&& 0xFFFF) % 2 ^ 16
      offset_middle := ((base >>> 16) &&& 0xFFFF) % 2 ^ 16
      offset_high := ((base >>> 32) &&& 0xFFFFFFFF) % 2 ^ 32
      selector := sel % 2 ^ 16
      zero := 0
      type_attr := flags % 2 ^ 8
      ist := 0 }

/-- Handler address read back from the three offset fields of a gate:
`offset_low | (offset_middle << 16) | (offset_high << 32)`. -/
def idt_entry.readOffset (e : idt_entry) : Nat :=
  e.offset_low ||| (e.offset_middle <<< 16) ||| (e.offset_high <<< 32)

/-- The gate with all seven fields 0. -/
def zeroGate : idt_entry :=
  { offset_low := 0, selector := 0, ist := 0, type_attr := 0, offset_middle := 0,
    offset_high := 0, zero := 0 }

/-- The loop `for (int i = 0; i < IDT_ENTRIES; i++) idt_set_gate(i, 0, 0, 0);` run for its
first `n` turns. -/
def init_idt_loop (n : Nat) (idt : Nat → idt_entry) : Nat → idt_entry :=
  (List.range n).foldl (fun t i => idt_set_gate t i 0 0 0) idt

/-- Source `init_idt`, up to the call of `load_idt`: the table and `ip` it leaves. `idtAddr`
stands for `(uintptr_t)&idt`, `isr0` and `isr1` for the addresses of the two entry stubs. -/
def init_idt (idt : Nat → idt_entry) (idtAddr isr0 isr1 : Nat) : (Nat → idt_entry) × table_ptr :=
  let ip : table_ptr := { limit := (sizeof_idt_entry * IDT_ENTRIES - 1) % 2 ^ 16, base := idtAddr }
  let t0 := init_idt_loop IDT_ENTRIES idt
  let t1 := idt_set_gate t0 0 isr0 0x08 0x8E
  let t2 := idt_set_gate t1 1 isr1 0x08 0x8E
  (t2, ip)

/-! ## The text terminal (`terminal.c`) -/

/-- Source constant `#define VGA_WIDTH 80`. -/
def VGA_WIDTH : Nat := 80

/-- Source constant `#define VGA_HEIGHT 25`. -/
def VGA_HEIGHT : Nat := 25

/-- The statics of `terminal.c` and the cells of `VGA_BUFFER`, one 16-bit value per cell
index. -/
structure Terminal where
  terminal_row : Nat
  terminal_column : Nat
  terminal_color : Nat
  buffer : Nat → Nat

/-- The cell value `(uint16_t)c | (uint16_t)terminal_color << 8`, stored as a `uint16_t`;
`c` is a `char`. -/
def vga_cell (c : Int) (color : Nat) : Nat :=
  ((c % 65536).toNat ||| ((color % 2 ^ 16) <<< 8)) % 2 ^ 16

/-- The statement `if (++terminal_row == VGA_HEIGHT) terminal_row = 0;` on the row. -/
def nextRow (row : Nat) : Nat :=
  if (row + 1) % WORD = VGA_HEIGHT then 0 else (row + 1) % WORD

/-- The cell index `terminal_row * VGA_WIDTH + terminal_column` (a `size_t`). -/
def cellIndex (t : Terminal) : Nat :=
  (t.terminal_row * VGA_WIDTH + t.terminal_column) % WORD

/-- Source `terminal_putchar`; the newline character is 10. -/
def terminal_putchar (t : Terminal) (c : Int) : Terminal :=
  if c = 10 then
    { t with terminal_column := 0, terminal_row := nextRow t.terminal_row }
  else
    let buf := Function.update t.buffer (cellIndex t) (vga_cell c t.terminal_color)
    if (t.terminal_column + 1) % WORD = VGA_WIDTH then
      { t with buffer := buf, terminal_column := 0, terminal_row := nextRow t.terminal_row }
    else
      { t with buffer := buf, terminal_column := (t.terminal_column + 1) % WORD }

/-- Source `terminal_write(data, size)`: `terminal_putchar` on the first `size` characters. -/
def terminal_write (t : Terminal) (data : List Int) (size : Nat) : Terminal :=
  (data.take size).foldl terminal_putchar t

/-- Source `strlen`: the number of characters before the first 0. -/
def strlen (data : List Int) : Nat :=
  (data.takeWhile fun ch => ch ≠ 0).length

/-- Source `terminal_writestring`. -/
def terminal_writestring (t : Terminal) (data : List Int) : Terminal :=
  terminal_write t data (strlen data)

/-- Source `init_vga`: row and column 0, colour `VGA_COLOR_LIGHT_GREY | VGA_COLOR_BLACK << 4`,
and every cell `y * VGA_WIDTH + x` set to a blank. -/
def init_vga (t : Terminal) : Terminal :=
  let color := (7 ||| (0 <<< 4)) % 2 ^ 8
  { terminal_row := 0
    terminal_column := 0
    terminal_color := color
    buffer := (List.range VGA_HEIGHT).foldl (fun b y =>
      (List.range VGA_WIDTH).foldl (fun b1 x =>
        Function.update b1 (y * VGA_WIDTH + x) (vga_cell 32 color)) b) t.buffer }

/-! ## Interrupt dispatch -/

/-- Source type `registers_t` of `isr.h`: sixteen 32-bit fields. -/
structure registers_t where
  ds : Nat
  edi : Nat
  esi : Nat
  ebp : Nat
  esp : Nat
  ebx : Nat
  edx : Nat
  ecx : Nat
  eax : Nat
  int_no : Nat
  err_code : Nat
  eip : Nat
  cs : Nat
  eflags : Nat
  useresp : Nat
  ss : Nat
deriving DecidableEq, Repr

/-- What interrupt handling can touch: the terminal, the table of registered callbacks (a
callback is the address of a function) and the record of the callbacks called so far, each
with the register snapshot it was given. -/
structure IsrWorld where
  term : Terminal
  handlers : Nat → Option Nat
  invoked : List (Nat × registers_t)

/-- Modelled from the spec: `register_interrupt_handler(n, handler)` is declared in `isr.h` and
called by `init_keyboard`, but defined nowhere in the sources. The spec says it inserts the
callback into the Handler Registration Table, under the vector number; `n` is a `uint8_t`. -/
def register_interrupt_handler (w : IsrWorld) (n handler : Nat) : IsrWorld :=
  { w with handlers := Function.update w.handlers (n % 2 ^ 8) (some handler) }

/-- The text `"Interrupt received!\n"` as `char` values. -/
def interruptMessage : List Int :=
  [73, 110, 116, 101, 114, 114, 117, 112, 116, 32, 114, 101, 99, 101, 105, 118, 101, 100, 33, 10]

/-- Source `isr_handler`: its whole body is `terminal_writestring("Interrupt received!\n")`.
It takes no argument, reads no table and calls no callback. -/
def isr_handler (w : IsrWorld) : IsrWorld :=
  { w with term := terminal_writestring w.term interruptMessage }

/-! ## Successive calls of the scheduler -/

/-- The outcome of `n` calls of `schedule` in a row: the cursor after each call, and the last
state. -/
def scheduleN (fuel : Nat) : Nat → Kernel → Option (List Int × Kernel)
  | 0, s => some ([], s)
  | n + 1, s =>
    match schedule fuel s with
    | none => none
    | some s1 =>
      match scheduleN fuel n s1 with
      | none => none
      | some r => some (s1.current_process :: r.1, r.2)

/-- Number of Active slots of the PCB table. -/
def activeCount (procs : Nat → Process) : Nat :=
  ((List.range MAX_PROCESSES).filter fun i => (procs i).active).length

/-- The cursor the loop of `schedule` moves to from cursor `c` (`c` itself if the loop does not
end within `MAX_PROCESSES` turns). -/
def nextCursor (procs : Nat → Process) (c : Int) : Int :=
  (scheduleLoop procs MAX_PROCESSES c).getD c

/-! ## More example states -/

/-- Memory with every byte 0. -/
def zeroMem : Memory := fun _ => 0

/-- An all-zero interrupt table. -/
def idtZero : Nat → idt_entry := fun _ => zeroGate

/-- A terminal before `init_vga`: arbitrary statics, every cell 0. -/
def rawTerminal : Terminal :=
  { terminal_row := 99, terminal_column := 99, terminal_color := 0, buffer := fun _ => 0 }

/-- The world in which `init_keyboard` runs after boot: terminal initialised, no callback
registered, none called. -/
def bootWorld : IsrWorld :=
  { term := init_vga rawTerminal, handlers := fun _ => none, invoked := [] }

/-- The text `"Hi\nyou"` as `char` values. -/
def sampleText : List Int := [72, 105, 10, 121, 111, 117]

/-- The Active slots of the PCB table, in ascending order. -/
def activeSlots (procs : Nat → Process) : List Nat :=
  (List.range MAX_PROCESSES).filter fun i => (procs i).active

/-- The `j`-th Active slot in ascending order (0 when there are not that many). -/
def slotAt (procs : Nat → Process) (j : Nat) : Nat :=
  (activeSlots procs).getD j 0

/-- A table in which no slot is Active. -/
def tableNone : Nat → Process := fun _ => { rsp := 0, cr3 := 0, active := false }

/-! ## The scheduler: lemmas -/

theorem saveRsp_active (s : Kernel) (i : Nat) :
    (saveRsp s i).active = (s.processes i).active := by
  unfold saveRsp
  split
  · by_cases h : i = s.current_process.toNat
    · subst h; simp
    · simp [Function.update_noteq h]
  · rfl

theorem saveRsp_cr3 (s : Kernel) (i : Nat) :
    (saveRsp s i).cr3 = (s.processes i).cr3 := by
  unfold saveRsp
  split
  · by_cases h : i = s.current_process.toNat
    · subst h; simp
    · simp [Function.update_noteq h]
  · rfl

/-- If the slot `k` steps after the cursor is Active and no slot strictly between is, the
loop ends there, provided it is given at least `k` turns. -/
theorem scheduleLoop_first (procs : Nat → Process) :
    ∀ (k fuel : Nat) (c : Int), -1 ≤ c → c ≤ 9 → 1 ≤ k → k ≤ fuel →
      (procs ((c + (k : Int)) % 10).toNat).active = true →
      (∀ j : Nat, 1 ≤ j → j < k → (procs ((c + (j : Int)) % 10).toNat).active = false) →
      scheduleLoop procs fuel c = some ((c + (k : Int)) % 10) := by
  intro k
  induction k with
  | zero => intro fuel c _ _ h; omega
  | succ k ih =>
    intro fuel c hc hc' _ hfuel hact hnone
    obtain ⟨fuel, rfl⟩ : ∃ f, fuel = f + 1 := ⟨fuel - 1, by omega⟩
    have htm : Int.tmod (c + 1) (MAX_PROCESSES : Int) = (c + 1) % 10 := by
      rw [Int.tmod_eq_emod (by omega) (by simp [MAX_PROCESSES])]; rfl
    unfold scheduleLoop
    simp only [htm]
    by_cases hk : k = 0
    · subst hk
      have hact' : (procs ((c + 1) % 10).toNat).active = true := by simpa using hact
      simp [hact']
    · have h1 : (procs ((c + 1) % 10).toNat).active = false := by
        simpa using hnone 1 (le_refl 1) (by omega)
      have hidx : ∀ j : Nat, ((c + 1) % 10 + (j : Int)) % 10 = (c + ((j + 1 : Nat) : Int)) % 10 := by
        intro j; push_cast; omega
      simp only [h1, Bool.false_eq_true, if_false]
      rw [ih fuel ((c + 1) % 10) (by omega) (by omega) (by omega) (by omega)
        (by rw [hidx]; exact hact)
        (fun j hj hjk => by rw [hidx]; exact hnone (j + 1) (by omega) (by omega))]
      rw [hidx]

/-- With an Active slot in the table there is a first Active slot after the cursor, at most
`MAX_PROCESSES` steps away. -/
theorem exists_first_active (procs : Nat → Process) (c : Int) (hc : -1 ≤ c) (hc' : c ≤ 9)
    (h : ∃ i, i < MAX_PROCESSES ∧ (procs i).active = true) :
    ∃ k : Nat, 1 ≤ k ∧ k ≤ MAX_PROCESSES ∧ (procs ((c + (k : Int)) % 10).toNat).active = true ∧
      ∀ j : Nat, 1 ≤ j → j < k → (procs ((c + (j : Int)) % 10).toNat).active = false := by
  obtain ⟨i, hi, hact⟩ := h
  simp only [MAX_PROCESSES] at hi ⊢
  have hex : ∃ k : Nat, 1 ≤ k ∧ (procs ((c + (k : Int)) % 10).toNat).active = true := by
    refine ⟨(((i : Int) - c - 1) % 10 + 1).toNat, by omega, ?_⟩
    have : ((c + (((((i : Int) - c - 1) % 10 + 1).toNat : Nat) : Int)) % 10).toNat = i := by omega
    rw [this]; exact hact
  have hle : Nat.find hex ≤ (((i : Int) - c - 1) % 10 + 1).toNat := by
    apply Nat.find_min'
    refine ⟨by omega, ?_⟩
    have : ((c + (((((i : Int) - c - 1) % 10 + 1).toNat : Nat) : Int)) % 10).toNat = i := by omega
    rw [this]; exact hact
  refine ⟨Nat.find hex, (Nat.find_spec hex).1, by omega, (Nat.find_spec hex).2, ?_⟩
  intro j hj hjk
  have := Nat.find_min hex hjk
  simp only [not_and, Bool.not_eq_true] at this
  exact this hj

/-- One call of `schedule` when the first Active slot after the cursor is `k` steps away. -/
theorem schedule_first (s : Kernel) (fuel k : Nat)
    (hc : -1 ≤ s.current_process) (hc' : s.current_process ≤ 9) (hk : 1 ≤ k) (hfuel : k ≤ fuel)
    (hact : (s.processes ((s.current_process + (k : Int)) % 10).toNat).active = true)
    (hnone : ∀ j : Nat, 1 ≤ j → j < k →
      (s.processes ((s.current_process + (j : Int)) % 10).toNat).active = false) :
    schedule fuel s = some { s with
      processes := saveRsp s
      current_process := (s.current_process + (k : Int)) % 10
      cr3 := (saveRsp s ((s.current_process + (k : Int)) % 10).toNat).cr3
      rsp := (saveRsp s ((s.current_process + (k : Int)) % 10).toNat).rsp } := by
  unfold schedule
  simp only
  rw [scheduleLoop_first (saveRsp s) k fuel s.current_process hc hc' hk hfuel
    (by rw [saveRsp_active]; exact hact)
    (fun j hj hjk => by rw [saveRsp_active]; exact hnone j hj hjk)]

/-- One call of `schedule`, stated by what it leaves: the cursor, and the `active` flags as
they were. -/
theorem schedule_first_spec (s : Kernel) (fuel k : Nat)
    (hc : -1 ≤ s.current_process) (hc' : s.current_process ≤ 9) (hk : 1 ≤ k) (hfuel : k ≤ fuel)
    (hact : (s.processes ((s.current_process + (k : Int)) % 10).toNat).active = true)
    (hnone : ∀ j : Nat, 1 ≤ j → j < k →
      (s.processes ((s.current_process + (j : Int)) % 10).toNat).active = false) :
    ∃ s1 : Kernel, schedule fuel s = some s1 ∧
      s1.current_process = (s.current_process + (k : Int)) % 10 ∧
      ∀ i, (s1.processes i).active = (s.processes i).active :=
  ⟨_, schedule_first s fuel k hc hc' hk hfuel hact hnone, rfl, fun i => saveRsp_active s i⟩

/-! ## C1 -/

/-- C1: with an Active slot in the table and the cursor in -1..MAX_PROCESSES-1, `schedule`
returns (given MAX_PROCESSES turns of its loop or more) and leaves the cursor on the first Active
slot of the circular ascending sequence (c+1) mod N, (c+2) mod N, ..., (c+N) mod N = c; and when
the Active slots are exactly 2, 5, 7 and the cursor is 5, three calls in a row select 7, then 2,
then 5. -/
theorem C1_schedule_selects_next_active (s : Kernel) (fuel : Nat)
    (hc : -1 ≤ s.current_process) (hc' : s.current_process < (MAX_PROCESSES : Int))
    (hact : ∃ i, i < MAX_PROCESSES ∧ (s.processes i).active = true)
    (hfuel : MAX_PROCESSES ≤ fuel) :
    (∃ (k : Nat) (s1 : Kernel), 1 ≤ k ∧ k ≤ MAX_PROCESSES ∧ schedule fuel s = some s1 ∧
      s1.current_process = (s.current_process + (k : Int)) % (MAX_PROCESSES : Int) ∧
      (s.processes s1.current_process.toNat).active = true ∧
      ∀ j : Nat, 1 ≤ j → j < k →
        (s.processes ((s.current_process + (j : Int)) % (MAX_PROCESSES : Int)).toNat).active
          = false) ∧
    (s.current_process = 5 →
      (∀ i, i < MAX_PROCESSES → ((s.processes i).active = true ↔ i = 2 ∨ i = 5 ∨ i = 7)) →
      ∃ s1 s2 s3 : Kernel,
        schedule fuel s = some s1 ∧ s1.current_process = 7 ∧
        schedule fuel s1 = some s2 ∧ s2.current_process = 2 ∧
        schedule fuel s2 = some s3 ∧ s3.current_process = 5) := by
  have hten : ((MAX_PROCESSES : Nat) : Int) = 10 := rfl
  rw [hten] at hc' ⊢
  have hfuel' : 10 ≤ fuel := hfuel
  constructor
  · obtain ⟨k, hk1, hk10, hka, hkn⟩ :=
      exists_first_active s.processes s.current_process hc (by omega) hact
    obtain ⟨s1, h1, hcur, _⟩ := schedule_first_spec s fuel k hc (by omega) hk1
      (le_trans hk10 hfuel) hka hkn
    exact ⟨k, s1, hk1, hk10, h1, hcur, by rw [hcur]; exact hka, hkn⟩
  · intro h5 hset
    have hon : ∀ i, i < 10 → (i = 2 ∨ i = 5 ∨ i = 7) → (s.processes i).active = true :=
      fun i hi h => (hset i hi).2 h
    have hoff : ∀ i, i < 10 → ¬ (i = 2 ∨ i = 5 ∨ i = 7) → (s.processes i).active = false :=
      fun i hi h => by
        cases hb : (s.processes i).active
        · rfl
        · exact absurd ((hset i hi).1 hb) h
    obtain ⟨s1, h1, hc1, ha1⟩ := schedule_first_spec s fuel 2 hc (by omega) (by omega)
      (by omega) (by rw [h5]; exact hon 7 (by omega) (by omega))
      (fun j hj hj2 => by
        obtain rfl : j = 1 := by omega
        rw [h5]; exact hoff 6 (by omega) (by omega))
    have hc1' : s1.current_process = 7 := by rw [hc1, h5]; rfl
    obtain ⟨s2, h2, hc2, ha2⟩ := schedule_first_spec s1 fuel 5 (by omega) (by omega) (by omega)
      (by omega) (by rw [hc1', ha1]; exact hon 2 (by omega) (by omega))
      (fun j hj hj5 => by
        rw [hc1', ha1]
        have : j = 1 ∨ j = 2 ∨ j = 3 ∨ j = 4 := by omega
        rcases this with rfl | rfl | rfl | rfl
        · exact hoff 8 (by omega) (by omega)
        · exact hoff 9 (by omega) (by omega)
        · exact hoff 0 (by omega) (by omega)
        · exact hoff 1 (by omega) (by omega))
    have hc2' : s2.current_process = 2 := by rw [hc2, hc1']; rfl
    obtain ⟨s3, h3, hc3, _⟩ := schedule_first_spec s2 fuel 3 (by omega) (by omega) (by omega)
      (by omega) (by rw [hc2', ha2, ha1]; exact hon 5 (by omega) (by omega))
      (fun j hj hj3 => by
        rw [hc2', ha2, ha1]
        have : j = 1 ∨ j = 2 := by omega
        rcases this with rfl | rfl
        · exact hoff 3 (by omega) (by omega)
        · exact hoff 4 (by omega) (by omega))
    exact ⟨s1, s2, s3, h1, hc1', h2, hc2', h3, by rw [hc3, hc2']; rfl⟩

/-- C1 at `table257`: the three calls select 7, 2 and 5. -/
theorem C1_schedule_selects_next_active_witness :
    ∃ s1 s2 s3 : Kernel,
      schedule 10 table257 = some s1 ∧ s1.current_process = 7 ∧
      schedule 10 s1 = some s2 ∧ s2.current_process = 2 ∧
      schedule 10 s2 = some s3 ∧ s3.current_process = 5 :=
  (C1_schedule_selects_next_active table257 10 (by decide) (by decide)
    ⟨2, by decide, rfl⟩ (by decide)).2 rfl (by
      intro i hi
      have hi' : i < 10 := hi
      simp [table257])

/-! ## C2 -/

theorem saveRsp_rsp_cursor (s : Kernel) (h : s.current_process ≠ -1) :
    (saveRsp s s.current_process.toNat).rsp = s.rsp := by
  simp [saveRsp, h]

/-- C2: when exactly one PCB is Active and it is the selected one, `schedule` returns (given
MAX_PROCESSES turns of its loop or more), the cursor is unchanged, the value saved into the
PCB is the stack-pointer register, and the stack-pointer register after the call is the one
before it. -/
theorem C2_schedule_single_active_noop (s : Kernel) (fuel c : Nat)
    (hc : c < MAX_PROCESSES) (hcur : s.current_process = (c : Int))
    (hone : ∀ i, i < MAX_PROCESSES → ((s.processes i).active = true ↔ i = c))
    (hfuel : MAX_PROCESSES ≤ fuel) :
    ∃ s1 : Kernel, schedule fuel s = some s1 ∧
      s1.current_process = s.current_process ∧
      (s1.processes c).rsp = s.rsp ∧
      s1.rsp = s.rsp := by
  have hc10 : c < 10 := hc
  have hfuel' : 10 ≤ fuel := hfuel
  have hmod : (s.current_process + ((10 : Nat) : Int)) % 10 = s.current_process := by
    rw [hcur]; omega
  have hne : s.current_process ≠ -1 := by rw [hcur]; omega
  have hnat : s.current_process.toNat = c := by rw [hcur]; simp
  have hstep := schedule_first s fuel 10 (by omega) (by omega) (by omega) hfuel'
    (by rw [hmod, hnat]; exact (hone c hc).2 rfl)
    (fun j hj hj10 => by
      have hidx : ((s.current_process + (j : Int)) % 10).toNat < 10 := by omega
      have hneq : ((s.current_process + (j : Int)) % 10).toNat ≠ c := by rw [hcur]; omega
      cases hb : (s.processes ((s.current_process + (j : Int)) % 10).toNat).active
      · rfl
      · exact absurd ((hone _ hidx).1 hb) hneq)
  rw [hmod] at hstep
  refine ⟨_, hstep, rfl, ?_, ?_⟩
  · show (saveRsp s c).rsp = s.rsp
    rw [← hnat]; exact saveRsp_rsp_cursor s hne
  · exact saveRsp_rsp_cursor s hne

/-- C2 at `tableOnly3`: slot 3 is selected again and the stack pointer stays `0x2003f80`. -/
theorem C2_schedule_single_active_noop_witness :
    ∃ s1 : Kernel, schedule 10 tableOnly3 = some s1 ∧
      s1.current_process = tableOnly3.current_process ∧
      (s1.processes 3).rsp = tableOnly3.rsp ∧
      s1.rsp = tableOnly3.rsp :=
  C2_schedule_single_active_noop tableOnly3 10 3 (by decide) rfl
    (by intro i _; simp [tableOnly3]) (by decide)

/-! ## C3, C4 -/

theorem kmalloc_processes (s : Kernel) (size : Nat) :
    (kmalloc s size).2.processes = s.processes := by
  unfold kmalloc; split <;> rfl

theorem kmalloc_current_process (s : Kernel) (size : Nat) :
    (kmalloc s size).2.current_process = s.current_process := by
  unfold kmalloc; split <;> rfl

theorem kmalloc_mem (s : Kernel) (size : Nat) : (kmalloc s size).2.mem = s.mem := by
  unfold kmalloc; split <;> rfl

/-- The scan finds nothing when every slot it looks at is Active. -/
theorem create_process_scan_full (s : Kernel) (entry_point : Nat) :
    ∀ n i0 : Nat, (∀ j, i0 ≤ j → j < i0 + n → (s.processes j).active = true) →
      create_process_scan s entry_point n i0 = (-1, s) := by
  intro n
  induction n with
  | zero => intro i0 _; rfl
  | succ n ih =>
    intro i0 h
    unfold create_process_scan
    rw [h i0 (le_refl _) (by omega)]
    simp only [Bool.not_true, Bool.false_eq_true, if_false]
    exact ih (i0 + 1) (fun j hj hjn => h j (by omega) (by omega))

/-- The scan stops at the first Inactive slot. -/
theorem create_process_scan_first (s : Kernel) (entry_point i : Nat)
    (hin : (s.processes i).active = false) :
    ∀ n i0 : Nat, i0 ≤ i → i < i0 + n → (∀ j, i0 ≤ j → j < i → (s.processes j).active = true) →
      create_process_scan s entry_point n i0 = ((i : Int), create_process_at s entry_point i) := by
  intro n
  induction n with
  | zero => intro i0 h1 h2; omega
  | succ n ih =>
    intro i0 h1 h2 hlow
    unfold create_process_scan
    by_cases he : i0 = i
    · subst he; simp [hin]
    · rw [hlow i0 (le_refl _) (by omega)]
      simp only [Bool.not_true, Bool.false_eq_true, if_false]
      exact ih (i0 + 1) (by omega) (by omega) (fun j hj hji => hlow j (by omega) hji)

/-- C3: on a table whose MAX_PROCESSES slots are all Active, `create_process` returns -1 and
the state after the call is the state before it (PCB table, cursor, heap cursor, memory). -/
theorem C3_create_process_full_table (s : Kernel) (entry_point : Nat)
    (hfull : ∀ i, i < MAX_PROCESSES → (s.processes i).active = true) :
    create_process s entry_point = (-1, s) :=
  create_process_scan_full s entry_point MAX_PROCESSES 0
    (fun j _ hj => hfull j (by omega))

/-- C3 at `tableFull`. -/
theorem C3_create_process_full_table_witness :
    create_process tableFull 0x100000 = (-1, tableFull) :=
  C3_create_process_full_table tableFull 0x100000 (fun _ _ => rfl)

/-- C4: when some slot is Inactive, `create_process` returns the lowest Inactive index `i`;
after the call slot `i` is Active with `cr3 = pml4`, every other slot and the cursor are as
before, no Active slot has become Inactive, and `i` is the only slot that went from Inactive to
Active. -/
theorem C4_create_process_lowest_inactive (s : Kernel) (entry_point : Nat)
    (hfree : ∃ j, j < MAX_PROCESSES ∧ (s.processes j).active = false) :
    ∃ i : Nat, i < MAX_PROCESSES ∧ (s.processes i).active = false ∧
      (∀ j, j < i → (s.processes j).active = true) ∧
      (create_process s entry_point).1 = (i : Int) ∧
      ((create_process s entry_point).2.processes i).active = true ∧
      ((create_process s entry_point).2.processes i).cr3 = pml4 ∧
      (∀ j, j ≠ i → (create_process s entry_point).2.processes j = s.processes j) ∧
      (create_process s entry_point).2.current_process = s.current_process ∧
      (∀ j, (s.processes j).active = true →
        ((create_process s entry_point).2.processes j).active = true) ∧
      (∀ j, (s.processes j).active = false →
        ((create_process s entry_point).2.processes j).active = true → j = i) := by
  have hex : ∃ j, (s.processes j).active = false := by
    obtain ⟨j, _, hj⟩ := hfree; exact ⟨j, hj⟩
  have hlt : Nat.find hex < MAX_PROCESSES := by
    obtain ⟨j, hj10, hj⟩ := hfree
    exact lt_of_le_of_lt (Nat.find_min' hex hj) hj10
  have hlow : ∀ j, j < Nat.find hex → (s.processes j).active = true := by
    intro j hj
    have := Nat.find_min hex hj
    simpa using this
  have hrun : create_process s entry_point
      = ((Nat.find hex : Int), create_process_at s entry_point (Nat.find hex)) :=
    create_process_scan_first s entry_point (Nat.find hex) (Nat.find_spec hex) MAX_PROCESSES 0
      (Nat.zero_le _) (by omega) (fun j _ hj => hlow j hj)
  have hother : ∀ j, j ≠ Nat.find hex →
      (create_process_at s entry_point (Nat.find hex)).processes j = s.processes j := by
    intro j hj
    simp [create_process_at, Function.update_noteq hj, kmalloc_processes]
  refine ⟨Nat.find hex, hlt, Nat.find_spec hex, hlow, ?_, ?_, ?_, ?_, ?_, ?_, ?_⟩
  · rw [hrun]
  · rw [hrun]; simp [create_process_at]
  · rw [hrun]; simp [create_process_at]
  · rw [hrun]; exact hother
  · rw [hrun]; simp [create_process_at, kmalloc_current_process]
  · intro j hj
    rw [hrun]
    by_cases he : j = Nat.find hex
    · rw [he]; simp [create_process_at]
    · show ((create_process_at s entry_point (Nat.find hex)).processes j).active = true
      rw [hother j he]; exact hj
  · intro j hj hj'
    by_contra he
    rw [hrun] at hj'
    have : ((create_process_at s entry_point (Nat.find hex)).processes j).active = true := hj'
    rw [hother j he, hj] at this
    exact Bool.false_ne_true this

/-- C4 at `tableTwo`: the call returns slot 2. -/
theorem C4_create_process_lowest_inactive_witness :
    ∃ i : Nat, i < MAX_PROCESSES ∧ (tableTwo.processes i).active = false ∧
      (∀ j, j < i → (tableTwo.processes j).active = true) ∧
      (create_process tableTwo 0x100000).1 = (i : Int) ∧
      ((create_process tableTwo 0x100000).2.processes i).active = true ∧
      ((create_process tableTwo 0x100000).2.processes i).cr3 = pml4 ∧
      (∀ j, j ≠ i → (create_process tableTwo 0x100000).2.processes j = tableTwo.processes j) ∧
      (create_process tableTwo 0x100000).2.current_process = tableTwo.current_process ∧
      (∀ j, (tableTwo.processes j).active = true →
        ((create_process tableTwo 0x100000).2.processes j).active = true) ∧
      (∀ j, (tableTwo.processes j).active = false →
        ((create_process tableTwo 0x100000).2.processes j).active = true → j = i) :=
  C4_create_process_lowest_inactive tableTwo 0x100000 ⟨2, by decide, rfl⟩

/-! ## C5 -/

/-- C5, the code at the failing input: with the heap used up `kmalloc(4096)` returns NULL, yet
`create_process` returns slot 0 instead of -1, marks slot 0 Active with saved stack pointer
`NULL + 4096 - 72 = 4024`, and stores the frame below address 4096: the word at 4088, which
was 0, now holds the entry point. -/
theorem C5_create_process_ignores_null :
    heapExhausted.heap_current = heap_end ∧
    (∀ i, i < MAX_PROCESSES → (heapExhausted.processes i).active = false) ∧
    (kmalloc heapExhausted 4096).1 = NULL ∧
    (create_process heapExhausted 0x101234).1 = 0 ∧
    (create_process heapExhausted 0x101234).2.processes 0
      = { rsp := 4024, cr3 := pml4, active := true } ∧
    read64 heapExhausted.mem 4088 = 0 ∧
    read64 (create_process heapExhausted 0x101234).2.mem 4088 = 0x101234 := by
  refine ⟨by decide, fun _ _ => rfl, by decide, by decide, by decide, by decide, by decide⟩

/-! ## The allocator: what holds when the pointer sum does not wrap -/

/-- A request that fits is served at the cursor, which then moves up by `size`. -/
theorem kmalloc_fits (s : Kernel) (size : Nat) (h : s.heap_current + size ≤ heap_end) :
    kmalloc s size = (s.heap_current, { s with heap_current := s.heap_current + size }) := by
  have hw : (s.heap_current + size) % WORD = s.heap_current + size :=
    Nat.mod_eq_of_lt (lt_of_le_of_lt h (by decide))
  unfold kmalloc
  rw [hw, if_neg (by omega)]

/-- A request past `heap_end` whose pointer sum stays below `2 ^ 64` is refused and the state
is left alone. -/
theorem kmalloc_refuses (s : Kernel) (size : Nat) (h : heap_end < s.heap_current + size)
    (hw : s.heap_current + size < WORD) : kmalloc s size = (NULL, s) := by
  unfold kmalloc
  rw [Nat.mod_eq_of_lt hw, if_pos h]

/-- The cursor never ends above `heap_end`. -/
theorem kmalloc_le_heap_end (s : Kernel) (size : Nat) (h : s.heap_current ≤ heap_end) :
    (kmalloc s size).2.heap_current ≤ heap_end := by
  unfold kmalloc
  split
  · exact h
  · simp only; omega

/-! ## C6, C7, C8: the wrapped pointer sum -/

/-- C6, the code at the failing input: from the boot state the sizes 16, 2^64 - 16, 16 are all
served; the second call takes the cursor back to `HEAP_START`, so the third call returns the
pointer the first one returned and the two 16-byte ranges are the same bytes; the range of the
second call does not lie inside the heap. -/
theorem C6_kmalloc_ranges_overlap :
    (kmallocSeq bootKernel [16, 2 ^ 64 - 16, 16]).1
      = [(0x2000000, 16), (0x2000010, 2 ^ 64 - 16), (0x2000000, 16)] ∧
    successes (kmallocSeq bootKernel [16, 2 ^ 64 - 16, 16]).1
      = (kmallocSeq bootKernel [16, 2 ^ 64 - 16, 16]).1 ∧
    overlaps (0x2000000, 16) (0x2000000, 16) = true ∧
    insideHeap (0x2000010, 2 ^ 64 - 16) = false ∧
    (kmallocSeq bootKernel [16, 2 ^ 64 - 16]).2.heap_current = 0x2000000 := by
  refine ⟨by decide, by decide, by decide, by decide, by decide⟩

/-- C7, the code at the failing input: at the boot state `heap_end - heap_current` is
`0x1000000`; the larger size `2^64 - 32` is not refused: the call returns `HEAP_START`, not
NULL, and moves the cursor to `HEAP_START - 32`. -/
theorem C7_kmalloc_oversize_served :
    heap_start ≤ bootKernel.heap_current ∧ bootKernel.heap_current ≤ heap_end ∧
    heap_end - bootKernel.heap_current < 2 ^ 64 - 32 ∧
    (kmalloc bootKernel (2 ^ 64 - 32)).1 = 0x2000000 ∧
    (kmalloc bootKernel (2 ^ 64 - 32)).1 ≠ NULL ∧
    (kmalloc bootKernel (2 ^ 64 - 32)).2.heap_current = 0x2000000 - 32 ∧
    (kmalloc bootKernel (2 ^ 64 - 32)).2.heap_current ≠ bootKernel.heap_current := by
  refine ⟨by decide, by decide, by decide, by decide, by decide, by decide, by decide⟩

/-- C8, the code at the failing input: one call `kmalloc(2^64 - 1)` from the boot state leaves
the cursor at `HEAP_START - 1`: it has gone down, and it is below `heap_start`. -/
theorem C8_kmalloc_cursor_wraps :
    (kmalloc bootKernel (2 ^ 64 - 1)).2.heap_current = 0x1FFFFFF ∧
    (kmalloc bootKernel (2 ^ 64 - 1)).2.heap_current < bootKernel.heap_current ∧
    (kmalloc bootKernel (2 ^ 64 - 1)).2.heap_current < heap_start := by
  refine ⟨by decide, by decide, by decide⟩

/-! ## Bit-field arithmetic -/

theorem or_shiftLeft_eq_add (a b n : Nat) (h : a < 2 ^ n) : a ||| (b <<< n) = a + b * 2 ^ n := by
  rw [Nat.shiftLeft_eq, Nat.or_comm, Nat.mul_comm, ← Nat.mul_add_lt_is_or h, Nat.add_comm]

theorem and_0xFFFF (x : Nat) : x &&& 0xFFFF = x % 2 ^ 16 :=
  Nat.and_pow_two_sub_one_eq_mod x 16

theorem and_0xFF (x : Nat) : x &&& 0xFF = x % 2 ^ 8 :=
  Nat.and_pow_two_sub_one_eq_mod x 8

theorem and_0x0F (x : Nat) : x &&& 0x0F = x % 2 ^ 4 :=
  Nat.and_pow_two_sub_one_eq_mod x 4

theorem or_and_mask (x y c : Nat) : (x ||| y) &&& c = (x &&& c) ||| (y &&& c) := by
  rw [Nat.and_comm, Nat.and_or_distrib_left, Nat.and_comm c x, Nat.and_comm c y]

/-- The granularity byte keeps its two nibbles apart: low nibble from the limit, high nibble
from `gran`. -/
theorem gran_byte (l g : Nat) :
    ((l &&& 0x0F) ||| (g &&& 0xF0)) % 2 ^ 8 = (l &&& 0x0F) ||| (g &&& 0xF0) ∧
    ((l &&& 0x0F) ||| (g &&& 0xF0)) &&& 0x0F = l &&& 0x0F ∧
    ((l &&& 0x0F) ||| (g &&& 0xF0)) &&& 0xF0 = g &&& 0xF0 := by
  have h1 : l &&& 0x0F < 2 ^ 8 := Nat.and_lt_two_pow l (by decide)
  have h2 : g &&& 0xF0 < 2 ^ 8 := Nat.and_lt_two_pow g (by decide)
  have e1 : (15 : Nat) &&& 15 = 15 := by decide
  have e2 : (240 : Nat) &&& 15 = 0 := by decide
  have e3 : (15 : Nat) &&& 240 = 0 := by decide
  have e4 : (240 : Nat) &&& 240 = 240 := by decide
  refine ⟨Nat.mod_eq_of_lt (Nat.or_lt_two_pow h1 h2), ?_, ?_⟩
  · rw [or_and_mask, Nat.and_assoc, Nat.and_assoc, e1, e2, Nat.and_zero, Nat.or_zero]
  · rw [or_and_mask, Nat.and_assoc, Nat.and_assoc, e3, e4, Nat.and_zero, Nat.zero_or]

/-- A byte whose low nibble is clear is its own high nibble. -/
theorem high_nibble_of_low_clear (g : Nat) (h : g < 256) (h0 : g &&& 0x0F = 0) :
    g &&& 0xF0 = g := by
  have hff : g &&& 0xFF = g := by rw [and_0xFF]; exact Nat.mod_eq_of_lt h
  have hsplit : g &&& 0xFF = (g &&& 0xF0) ||| (g &&& 0x0F) := by
    rw [← Nat.and_or_distrib_left]; rfl
  rw [h0, Nat.or_zero] at hsplit
  rw [← hsplit, hff]

/-! ## C9 -/

/-- C9 as stated fails: the data-segment call of `init_gdt`, `gdt_set_gate(2, 0, 0xFFFFFFFF,
0x92, 0xCF)`, reads back limit `0xFFFFF` and granularity flags `0xC0`, not the `0xFFFFFFFF`
and `0xCF` passed in. -/
theorem C9_limit_and_flags_truncated :
    ((gdt_set_gate gdtZero 2 0 0xFFFFFFFF 0x92 0xCF) 2).readLimit = 0xFFFFF ∧
    ((gdt_set_gate gdtZero 2 0 0xFFFFFFFF 0x92 0xCF) 2).readFlags = 0xC0 ∧
    ¬ (((gdt_set_gate gdtZero 2 0 0xFFFFFFFF 0x92 0xCF) 2).readBase = 0 ∧
       ((gdt_set_gate gdtZero 2 0 0xFFFFFFFF 0x92 0xCF) 2).readLimit = 0xFFFFFFFF ∧
       ((gdt_set_gate gdtZero 2 0 0xFFFFFFFF 0x92 0xCF) 2).access = 0x92 ∧
       ((gdt_set_gate gdtZero 2 0 0xFFFFFFFF 0x92 0xCF) 2).readFlags = 0xCF) := by
  refine ⟨by decide, by decide, by decide⟩

/-- C9, amended: for every slot, every 32-bit base, every limit and every 8-bit access and
gran, the descriptor written by `gdt_set_gate` reads back the base and the access byte that
were passed; the limit read back is `limit mod 2^20` and the granularity flags read back are
`gran & 0xF0`, so the limit comes back as passed when `limit < 2^20` and the granularity when
its low nibble is clear. -/
theorem C9_gdt_round_trip (gdt : Nat → gdt_entry) (num base limit access gran : Nat)
    (hb : base < 2 ^ 32) (ha : access < 2 ^ 8) (hg : gran < 2 ^ 8) :
    ((gdt_set_gate gdt num base limit access gran) num).readBase = base ∧
    ((gdt_set_gate gdt num base limit access gran) num).access = access ∧
    ((gdt_set_gate gdt num base limit access gran) num).readLimit = limit % 2 ^ 20 ∧
    ((gdt_set_gate gdt num base limit access gran) num).readFlags = gran &&& 0xF0 ∧
    (limit < 2 ^ 20 → ((gdt_set_gate gdt num base limit access gran) num).readLimit = limit) ∧
    (gran &&& 0x0F = 0 →
      ((gdt_set_gate gdt num base limit access gran) num).readFlags = gran) := by
  obtain ⟨hg1, hg2, hg3⟩ := gran_byte (limit >>> 16) gran
  have hlim : ((gdt_set_gate gdt num base limit access gran) num).readLimit = limit % 2 ^ 20 := by
    simp only [gdt_set_gate, Function.update_same, gdt_entry.readLimit]
    rw [hg1, hg2, and_0xFFFF, and_0x0F, Nat.shiftRight_eq_div_pow,
      or_shiftLeft_eq_add _ _ 16 (Nat.mod_lt _ (by decide))]
    norm_num
    omega
  have hfl : ((gdt_set_gate gdt num base limit access gran) num).readFlags = gran &&& 0xF0 := by
    simp only [gdt_set_gate, Function.update_same, gdt_entry.readFlags]
    rw [hg1, hg3]
  refine ⟨?_, ?_, hlim, hfl, ?_, ?_⟩
  · simp only [gdt_set_gate, Function.update_same, gdt_entry.readBase]
    rw [and_0xFFFF, and_0xFF, and_0xFF, Nat.shiftRight_eq_div_pow, Nat.shiftRight_eq_div_pow,
      or_shiftLeft_eq_add _ _ 16 (Nat.mod_lt _ (by decide)),
      or_shiftLeft_eq_add _ _ 24 (by norm_num; omega)]
    norm_num
    omega
  · simp only [gdt_set_gate, Function.update_same]
    exact Nat.mod_eq_of_lt ha
  · intro h
    rw [hlim]; exact Nat.mod_eq_of_lt h
  · intro h
    rw [hfl]; exact high_nibble_of_low_clear gran hg h

/-- C9 amended, at the call `gdt_set_gate(1, 0x12345678, 0xABCDE, 0x9A, 0xA0)`. -/
theorem C9_gdt_round_trip_witness :
    ((gdt_set_gate gdtZero 1 0x12345678 0xABCDE 0x9A 0xA0) 1).readBase = 0x12345678 ∧
    ((gdt_set_gate gdtZero 1 0x12345678 0xABCDE 0x9A 0xA0) 1).access = 0x9A ∧
    ((gdt_set_gate gdtZero 1 0x12345678 0xABCDE 0x9A 0xA0) 1).readLimit = 0xABCDE ∧
    ((gdt_set_gate gdtZero 1 0x12345678 0xABCDE 0x9A 0xA0) 1).readFlags = 0xA0 :=
  have h := C9_gdt_round_trip gdtZero 1 0x12345678 0xABCDE 0x9A 0xA0
    (by decide) (by decide) (by decide)
  ⟨h.1, h.2.1, h.2.2.2.2.1 (by decide), h.2.2.2.2.2 (by decide)⟩

/-! ## Memory: loads after stores -/

theorem WORD_eq : WORD = 18446744073709551616 := by decide

theorem read64_eq (m : Memory) (a : Nat) :
    read64 m a = m ((a + 0) % WORD) % 256 * 1 + m ((a + 1) % WORD) % 256 * 256
      + m ((a + 2) % WORD) % 256 * 65536 + m ((a + 3) % WORD) % 256 * 16777216
      + m ((a + 4) % WORD) % 256 * 4294967296 + m ((a + 5) % WORD) % 256 * 1099511627776
      + m ((a + 6) % WORD) % 256 * 281474976710656
      + m ((a + 7) % WORD) % 256 * 72057594037927936 := by
  simp [read64, List.range_succ]
  omega

/-- Byte `k` of the stored word. -/
theorem write64_at (m : Memory) (a v k : Nat) (hk : k < 8) :
    write64 m a v ((a + k) % WORD) = v / 256 ^ k % 256 := by
  have hoff : offsetFrom a ((a + k) % WORD) = k := by
    unfold offsetFrom; rw [WORD_eq] at *; omega
  have hlt : (a + k) % WORD < WORD := Nat.mod_lt _ (by decide)
  unfold write64
  rw [if_pos ⟨hlt, by rw [hoff]; exact hk⟩, hoff]

/-- A store leaves the bytes outside its eight alone. -/
theorem write64_out (m : Memory) (a v x : Nat) (ha : a + 8 ≤ WORD) (hx : x < a ∨ a + 8 ≤ x) :
    write64 m a v x = m x := by
  unfold write64
  rw [if_neg]
  rintro ⟨hxw, hoff⟩
  unfold offsetFrom at hoff
  rw [WORD_eq] at *
  omega

/-- A load gives back the word just stored at the same address. -/
theorem read64_write64_same (m : Memory) (a v : Nat) (hv : v < WORD) :
    read64 (write64 m a v) a = v := by
  rw [read64_eq, write64_at m a v 0 (by omega), write64_at m a v 1 (by omega),
    write64_at m a v 2 (by omega), write64_at m a v 3 (by omega),
    write64_at m a v 4 (by omega), write64_at m a v 5 (by omega),
    write64_at m a v 6 (by omega), write64_at m a v 7 (by omega)]
  rw [WORD_eq] at hv
  norm_num
  omega

/-- A load from eight bytes that a store did not touch is as before the store. -/
theorem read64_write64_other (m : Memory) (a v b : Nat) (ha : a + 8 ≤ WORD) (hb : b + 8 ≤ WORD)
    (hdisj : b + 8 ≤ a ∨ a + 8 ≤ b) : read64 (write64 m a v) b = read64 m b := by
  have hbyte : ∀ k, k < 8 → write64 m a v ((b + k) % WORD) = m ((b + k) % WORD) := by
    intro k hk
    apply write64_out m a v _ ha
    rw [WORD_eq] at *
    omega
  rw [read64_eq, read64_eq, hbyte 0 (by omega), hbyte 1 (by omega), hbyte 2 (by omega),
    hbyte 3 (by omega), hbyte 4 (by omega), hbyte 5 (by omega), hbyte 6 (by omega),
    hbyte 7 (by omega)]

/-! ## Paging: lemmas -/

theorem init_paging_loop_succ (n : Nat) (m : Memory) :
    init_paging_loop (n + 1) m
      = write64 (init_paging_loop n m) (pt + 8 * n) ((n * PAGE_SIZE) ||| 3) := by
  simp [init_paging_loop, List.range_succ, List.foldl_append]

/-- A leaf entry is its frame address plus the two flag bits. -/
theorem leaf_entry_eq (i : Nat) : (i * PAGE_SIZE) ||| 3 = i * 4096 + 3 := by
  have h := Nat.mul_add_lt_is_or (show 3 < 2 ^ 12 by decide) i
  rw [PAGE_SIZE, Nat.mul_comm i 4096]
  exact h.symm

/-- After `n` turns of the loop, `pt[i]` holds `(i * PAGE_SIZE) | 3` for every `i < n`. -/
theorem init_paging_loop_read (m : Memory) :
    ∀ n, n ≤ ENTRIES_PER_TABLE → ∀ i, i < n →
      read64 (init_paging_loop n m) (pt + 8 * i) = (i * PAGE_SIZE) ||| 3 := by
  intro n
  induction n with
  | zero => intro _ i hi; omega
  | succ n ih =>
    intro hn i hi
    have hn' : n < 512 := hn
    rw [init_paging_loop_succ]
    by_cases he : i = n
    · subst he
      apply read64_write64_same
      rw [leaf_entry_eq, WORD_eq]; omega
    · rw [read64_write64_other _ _ _ _ (by rw [WORD_eq, pt]; omega) (by rw [WORD_eq, pt]; omega)
        (by omega)]
      exact ih (by omega) i (by omega)

/-- What the three upper-level entries and the leaf entries hold after `init_paging`. -/
theorem init_paging_read (m : Memory) :
    read64 (init_paging m) pml4 = pdpt ||| 3 ∧
    read64 (init_paging m) pdpt = pd ||| 3 ∧
    read64 (init_paging m) pd = pt ||| 3 ∧
    ∀ i, i < ENTRIES_PER_TABLE → read64 (init_paging m) (pt + 8 * i) = (i * PAGE_SIZE) ||| 3 := by
  have hW : WORD = 18446744073709551616 := WORD_eq
  unfold init_paging
  simp only [Nat.mul_zero, Nat.add_zero]
  refine ⟨?_, ?_, ?_, ?_⟩
  · exact read64_write64_same _ _ _ (by decide)
  · rw [read64_write64_other _ _ _ _ (by decide) (by decide) (by decide)]
    exact read64_write64_same _ _ _ (by decide)
  · rw [read64_write64_other _ _ _ _ (by decide) (by decide) (by decide),
      read64_write64_other _ _ _ _ (by decide) (by decide) (by decide)]
    exact read64_write64_same _ _ _ (by decide)
  · intro i hi
    have hi' : i < 512 := hi
    rw [read64_write64_other _ _ _ _ (by decide) (by rw [hW, pt]; omega)
        (by rw [pml4, pt]; omega),
      read64_write64_other _ _ _ _ (by decide) (by rw [hW, pt]; omega)
        (by rw [pdpt, pt]; omega),
      read64_write64_other _ _ _ _ (by decide) (by rw [hW, pt]; omega)
        (by rw [pd, pt]; omega)]
    exact init_paging_loop_read m ENTRIES_PER_TABLE (le_refl _) i hi

/-- Frame address and flag bits of a leaf entry. -/
theorem leaf_entry_decode (i : Nat) (hi : i < 512) :
    entryFrame (i * 4096 + 3) = i * 4096 ∧ entryPresent (i * 4096 + 3) = true ∧
    entryWritable (i * 4096 + 3) = true := by
  have hfr : ∀ x, x < 2 ^ 40 → (x * 4096 + 3) &&& 0x000FFFFFFFFFF000 = x * 4096 := by
    intro x hx
    apply Nat.eq_of_testBit_eq
    intro j
    have hmask : (0x000FFFFFFFFFF000 : Nat) = (2 ^ 40 - 1) <<< 12 := by decide
    have hval : x * 4096 + 3 = 3 ||| (x <<< 12) := by
      rw [or_shiftLeft_eq_add 3 x 12 (by decide)]; omega
    have hx12 : x * 4096 = x <<< 12 := by rw [Nat.shiftLeft_eq]
    rw [hmask, hval, hx12]
    simp only [Nat.testBit_and, Nat.testBit_or, Nat.testBit_shiftLeft, Nat.testBit_two_pow_sub_one]
    by_cases hj : 12 ≤ j
    · have h3 : Nat.testBit 3 j = false :=
        Nat.testBit_lt_two_pow (lt_of_lt_of_le (by decide : 3 < 2 ^ 12)
          (Nat.pow_le_pow_right (by decide) hj))
      by_cases hj' : j - 12 < 40
      · simp [hj, hj', h3]
      · have hxb : x.testBit (j - 12) = false :=
          Nat.testBit_lt_two_pow (lt_of_lt_of_le hx
            (Nat.pow_le_pow_right (by decide) (by omega)))
        simp [hj, hj', h3, hxb]
    · simp [hj]
  refine ⟨hfr i (lt_trans hi (by decide)), ?_, ?_⟩
  · have : (i * 4096 + 3) &&& 1 = 1 := by
      have := Nat.and_pow_two_sub_one_eq_mod (i * 4096 + 3) 1
      simp only [pow_one, Nat.add_one_sub_one] at this
      rw [this]; omega
    simp [entryPresent, this]
  · have h4 : (i * 4096 + 3) &&& 3 = 3 := by
      have := Nat.and_pow_two_sub_one_eq_mod (i * 4096 + 3) 2
      norm_num at this
      rw [this]; omega
    have : (i * 4096 + 3) &&& 2 = 2 := by
      have h32 : (3 : Nat) &&& 2 = 2 := by decide
      rw [← h32, ← Nat.and_assoc, h4]
    simp [entryWritable, this]

theorem tableIndex_eq (level a : Nat) : tableIndex level a = a / 2 ^ (12 + 9 * level) % 2 ^ 9 := by
  unfold tableIndex
  rw [Nat.shiftRight_eq_div_pow]
  exact Nat.and_pow_two_sub_one_eq_mod _ 9

/-- Table indices and page offset of an address in the first 2 MiB. -/
theorem tableIndex_low (a : Nat) (ha : a < 0x200000) :
    tableIndex 3 a = 0 ∧ tableIndex 2 a = 0 ∧ tableIndex 1 a = 0 ∧ tableIndex 0 a = a / 4096 ∧
    a &&& 0xFFF = a % 4096 := by
  refine ⟨?_, ?_, ?_, ?_, Nat.and_pow_two_sub_one_eq_mod a 12⟩
  · rw [tableIndex_eq]; norm_num; omega
  · rw [tableIndex_eq]; norm_num; omega
  · rw [tableIndex_eq]; norm_num; omega
  · rw [tableIndex_eq]; norm_num; omega

/-! ## C10 -/

/-- C10: after `init_paging`, for every i < 512 the leaf entry `pt[i]` has frame address
`i * 4096` with the present and writable bits set; `pml4[0]`, `pdpt[0]` and `pd[0]` hold the
address of the next-level table with both bits set; and the 4-level walk from `pml4` of every
virtual address `a < 0x200000` goes through writable entries and yields physical address `a`. -/
theorem C10_init_paging_identity_map (m : Memory) :
    (∀ i, i < ENTRIES_PER_TABLE →
      entryFrame (read64 (init_paging m) (pt + 8 * i)) = i * PAGE_SIZE ∧
      entryPresent (read64 (init_paging m) (pt + 8 * i)) = true ∧
      entryWritable (read64 (init_paging m) (pt + 8 * i)) = true) ∧
    (entryFrame (read64 (init_paging m) (pml4 + 8 * 0)) = pdpt ∧
      entryPresent (read64 (init_paging m) (pml4 + 8 * 0)) = true ∧
      entryWritable (read64 (init_paging m) (pml4 + 8 * 0)) = true) ∧
    (entryFrame (read64 (init_paging m) (pdpt + 8 * 0)) = pd ∧
      entryPresent (read64 (init_paging m) (pdpt + 8 * 0)) = true ∧
      entryWritable (read64 (init_paging m) (pdpt + 8 * 0)) = true) ∧
    (entryFrame (read64 (init_paging m) (pd + 8 * 0)) = pt ∧
      entryPresent (read64 (init_paging m) (pd + 8 * 0)) = true ∧
      entryWritable (read64 (init_paging m) (pd + 8 * 0)) = true) ∧
    (∀ a, a < 0x200000 →
      translate (init_paging m) pml4 a = some a ∧ walkWritable (init_paging m) pml4 a = true) := by
  obtain ⟨h4, h3, h2, h1⟩ := init_paging_read m
  have hleaf : ∀ i, i < ENTRIES_PER_TABLE →
      entryFrame (read64 (init_paging m) (pt + 8 * i)) = i * PAGE_SIZE ∧
      entryPresent (read64 (init_paging m) (pt + 8 * i)) = true ∧
      entryWritable (read64 (init_paging m) (pt + 8 * i)) = true := by
    intro i hi
    rw [h1 i hi, leaf_entry_eq]
    exact leaf_entry_decode i hi
  have e4 : entryFrame (pdpt ||| 3) = pdpt ∧ entryPresent (pdpt ||| 3) = true ∧
      entryWritable (pdpt ||| 3) = true := by decide
  have e3 : entryFrame (pd ||| 3) = pd ∧ entryPresent (pd ||| 3) = true ∧
      entryWritable (pd ||| 3) = true := by decide
  have e2 : entryFrame (pt ||| 3) = pt ∧ entryPresent (pt ||| 3) = true ∧
      entryWritable (pt ||| 3) = true := by decide
  simp only [Nat.mul_zero, Nat.add_zero]
  refine ⟨hleaf, by rw [h4]; exact e4, by rw [h3]; exact e3, by rw [h2]; exact e2, ?_⟩
  intro a ha
  obtain ⟨i3, i2, i1, i0, hoff⟩ := tableIndex_low a ha
  have hidx : a / 4096 < ENTRIES_PER_TABLE := by
    show a / 4096 < 512
    omega
  obtain ⟨hf, hp, hw⟩ := hleaf (a / 4096) hidx
  have hsum : a / 4096 * PAGE_SIZE + a % 4096 = a := by
    show a / 4096 * 4096 + a % 4096 = a
    omega
  constructor
  · unfold translate
    simp only [i3, i2, i1, i0, hoff, Nat.mul_zero, Nat.add_zero, h4, h3, h2, e4.1, e4.2.1, e3.1,
      e3.2.1, e2.1, e2.2.1, hf, hp, hsum, Bool.not_true, Bool.false_eq_true, if_false]
  · unfold walkWritable
    simp only [i3, i2, i1, i0, Nat.mul_zero, Nat.add_zero, h4, h3, h2, e4.1, e4.2.2, e3.1,
      e3.2.2, e2.1, e2.2.2, hw, Bool.and_self]

/-- C10 at an all-zero memory: the leaf entry for frame 5 and the walk of address 0x12345. -/
theorem C10_init_paging_identity_map_witness :
    entryFrame (read64 (init_paging fun _ => 0) (pt + 8 * 5)) = 5 * PAGE_SIZE ∧
    translate (init_paging fun _ => 0) pml4 0x12345 = some 0x12345 ∧
    walkWritable (init_paging fun _ => 0) pml4 0x12345 = true :=
  have h := C10_init_paging_identity_map fun _ => 0
  ⟨(h.1 5 (by decide)).1, h.2.2.2.2 0x12345 (by decide)⟩

/-! ## C11 -/

/-- The loop of `init_paging` leaves every eight bytes outside `pt[0..n)` as they were. -/
theorem init_paging_loop_frame (m : Memory) (b : Nat) (hb : b + 8 ≤ WORD) :
    ∀ n, n ≤ ENTRIES_PER_TABLE → (b + 8 ≤ pt ∨ pt + 8 * n ≤ b) →
      read64 (init_paging_loop n m) b = read64 m b := by
  intro n
  induction n with
  | zero => intro _ _; rfl
  | succ n ih =>
    intro hn hout
    have hn' : n < 512 := hn
    rw [init_paging_loop_succ,
      read64_write64_other _ _ _ _ (by rw [WORD_eq, pt]; omega) hb (by omega)]
    exact ih (by omega) (by omega)

/-- The only entry of the page directory that `init_paging` writes is `pd[0]`. -/
theorem init_paging_pd_untouched (m : Memory) (j : Nat) (hj : 1 ≤ j) (hj' : j < ENTRIES_PER_TABLE) :
    read64 (init_paging m) (pd + 8 * j) = read64 m (pd + 8 * j) := by
  have hj2 : j < 512 := hj'
  unfold init_paging
  simp only [Nat.mul_zero, Nat.add_zero]
  rw [read64_write64_other _ _ _ _ (by decide) (by rw [WORD_eq, pd]; omega)
      (by rw [pml4, pd]; omega),
    read64_write64_other _ _ _ _ (by decide) (by rw [WORD_eq, pd]; omega)
      (by rw [pdpt, pd]; omega),
    read64_write64_other _ _ _ _ (by decide) (by rw [WORD_eq, pd]; omega)
      (by rw [pd]; omega)]
  exact init_paging_loop_frame m _ (by rw [WORD_eq, pd]; omega) ENTRIES_PER_TABLE (le_refl _)
    (by left; rw [pd, pt]; omega)

theorem read64_zeroMem (a : Nat) : read64 zeroMem a = 0 := by
  rw [read64_eq]; simp [zeroMem]

/-- On zeroed memory, nothing from 2 MiB up to 1 GiB is translated after `init_paging`: the
walk stops at a page-directory entry that was never written. -/
theorem translate_above_2MiB (a : Nat) (h1 : 0x200000 ≤ a) (h2 : a < 0x40000000) :
    translate (init_paging zeroMem) pml4 a = none := by
  obtain ⟨h4, h3, -, -⟩ := init_paging_read zeroMem
  have i3 : tableIndex 3 a = 0 := by rw [tableIndex_eq]; norm_num; omega
  have i2 : tableIndex 2 a = 0 := by rw [tableIndex_eq]; norm_num; omega
  have i1 : 1 ≤ tableIndex 1 a ∧ tableIndex 1 a < ENTRIES_PER_TABLE := by
    rw [tableIndex_eq, ENTRIES_PER_TABLE]; norm_num; omega
  have e4 : entryFrame (pdpt ||| 3) = pdpt ∧ entryPresent (pdpt ||| 3) = true := by decide
  have e3 : entryFrame (pd ||| 3) = pd ∧ entryPresent (pd ||| 3) = true := by decide
  have e2 : read64 (init_paging zeroMem) (pd + 8 * tableIndex 1 a) = 0 := by
    rw [init_paging_pd_untouched zeroMem _ i1.1 i1.2, read64_zeroMem]
  have hp : entryPresent 0 = false := by decide
  unfold translate
  simp only [i3, i2, Nat.mul_zero, Nat.add_zero, h4, h3, e4.1, e4.2, e3.1, e3.2, e2, hp,
    Bool.not_true, Bool.not_false, Bool.false_eq_true, if_false, if_true]

/-- C11, the code at the failing input: after `init_paging` run on zeroed memory, the first
and last byte of the heap region `[0x2000000, 0x3000000)` and of the page-table pages
`[0x1000000, 0x1004000)` are not translated at all: the walk finds no present entry. -/
theorem C11_heap_and_tables_unmapped :
    translate (init_paging zeroMem) pml4 HEAP_START = none ∧
    translate (init_paging zeroMem) pml4 (HEAP_START + HEAP_SIZE - 1) = none ∧
    translate (init_paging zeroMem) pml4 pml4 = none ∧
    translate (init_paging zeroMem) pml4 (pt + 0xFFF) = none :=
  ⟨translate_above_2MiB _ (by decide) (by decide), translate_above_2MiB _ (by decide) (by decide),
   translate_above_2MiB _ (by decide) (by decide), translate_above_2MiB _ (by decide) (by decide)⟩
/-! ## The interrupt table: lemmas -/

theorem and_0xFFFFFFFF (x : Nat) : x &&& 0xFFFFFFFF = x % 2 ^ 32 :=
  Nat.and_pow_two_sub_one_eq_mod x 32

/-- The three offset fields written by `idt_set_gate` reassemble to the 64-bit address. -/
theorem idt_offset_round_trip (base : Nat) (hb : base < 2 ^ 64) :
    ((base &&& 0xFFFF) % 2 ^ 16) ||| ((((base >>> 16) &&& 0xFFFF) % 2 ^ 16) <<< 16)
      ||| ((((base >>> 32) &&& 0xFFFFFFFF) % 2 ^ 32) <<< 32) = base := by
  rw [and_0xFFFF, and_0xFFFF, and_0xFFFFFFFF, Nat.shiftRight_eq_div_pow,
    Nat.shiftRight_eq_div_pow, Nat.mod_mod, Nat.mod_mod, Nat.mod_mod,
    or_shiftLeft_eq_add _ _ 16 (Nat.mod_lt _ (by decide)),
    or_shiftLeft_eq_add _ _ 32 (by norm_num; omega)]
  norm_num at hb ⊢
  omega

theorem idt_set_gate_eq (idt : Nat → idt_entry) (n base sel flags : Nat) (hn : n < 256) :
    idt_set_gate idt n base sel flags = Function.update idt n
      { offset_low := (base &&& 0xFFFF) % 2 ^ 16
        offset_middle := ((base >>> 16) &&& 0xFFFF) % 2 ^ 16
        offset_high := ((base >>> 32) &&& 0xFFFFFFFF) % 2 ^ 32
        selector := sel % 2 ^ 16
        zero := 0
        type_attr := flags % 2 ^ 8
        ist := 0 } := by
  unfold idt_set_gate
  rw [Nat.mod_eq_of_lt (show n < 2 ^ 8 from hn)]

/-- The gate `idt_set_gate` stores, for in-range arguments. -/
theorem idt_set_gate_same (idt : Nat → idt_entry) (n base sel flags : Nat) (hn : n < 256)
    (hb : base < 2 ^ 64) (hs : sel < 2 ^ 16) (hf : flags < 2 ^ 8) :
    ((idt_set_gate idt n base sel flags) n).readOffset = base ∧
    ((idt_set_gate idt n base sel flags) n).selector = sel ∧
    ((idt_set_gate idt n base sel flags) n).type_attr = flags ∧
    ((idt_set_gate idt n base sel flags) n).ist = 0 ∧
    ((idt_set_gate idt n base sel flags) n).zero = 0 := by
  rw [idt_set_gate_eq idt n base sel flags hn, Function.update_same]
  exact ⟨idt_offset_round_trip base hb, Nat.mod_eq_of_lt hs, Nat.mod_eq_of_lt hf, rfl, rfl⟩

/-- Every other gate is left as it was. -/
theorem idt_set_gate_other (idt : Nat → idt_entry) (n base sel flags v : Nat) (hn : n < 256)
    (hv : v ≠ n) : (idt_set_gate idt n base sel flags) v = idt v := by
  rw [idt_set_gate_eq idt n base sel flags hn, Function.update_noteq hv]

theorem idt_set_gate_zero (idt : Nat → idt_entry) (n : Nat) (hn : n < 256) :
    (idt_set_gate idt n 0 0 0) n = zeroGate := by
  rw [idt_set_gate_eq idt n 0 0 0 hn, Function.update_same]
  rfl

theorem init_idt_loop_succ (n : Nat) (idt : Nat → idt_entry) :
    init_idt_loop (n + 1) idt = idt_set_gate (init_idt_loop n idt) n 0 0 0 := by
  simp [init_idt_loop, List.range_succ, List.foldl_append]

/-- After `n` turns of the clearing loop the first `n` gates are all-zero. -/
theorem init_idt_loop_zero (idt : Nat → idt_entry) :
    ∀ n, n ≤ IDT_ENTRIES → ∀ v, v < n → init_idt_loop n idt v = zeroGate := by
  intro n
  induction n with
  | zero => intro _ v hv; omega
  | succ n ih =>
    intro hn v hv
    have hn' : n < 256 := hn
    rw [init_idt_loop_succ]
    by_cases he : v = n
    · subst he; exact idt_set_gate_zero _ v hn'
    · rw [idt_set_gate_other _ _ _ _ _ _ hn' he]
      exact ih (by omega) v (by omega)

/-! ## C12 -/

/-- C12: after `init_idt`, gates 0 and 1 hold the addresses of `isr0` and `isr1` with selector
0x08, type/attribute 0x8E and ist 0; every vector from 2 to 255 holds the all-zero gate,
whatever the table held before; and the limit recorded in `ip` is 256 * 16 - 1. -/
theorem C12_init_idt_two_gates (idt : Nat → idt_entry) (idtAddr isr0 isr1 : Nat)
    (h0 : isr0 < 2 ^ 64) (h1 : isr1 < 2 ^ 64) :
    ((init_idt idt idtAddr isr0 isr1).1 0).readOffset = isr0 ∧
    ((init_idt idt idtAddr isr0 isr1).1 0).selector = 0x08 ∧
    ((init_idt idt idtAddr isr0 isr1).1 0).type_attr = 0x8E ∧
    ((init_idt idt idtAddr isr0 isr1).1 0).ist = 0 ∧
    ((init_idt idt idtAddr isr0 isr1).1 1).readOffset = isr1 ∧
    ((init_idt idt idtAddr isr0 isr1).1 1).selector = 0x08 ∧
    ((init_idt idt idtAddr isr0 isr1).1 1).type_attr = 0x8E ∧
    ((init_idt idt idtAddr isr0 isr1).1 1).ist = 0 ∧
    (∀ v, 2 ≤ v → v < IDT_ENTRIES → (init_idt idt idtAddr isr0 isr1).1 v = zeroGate) ∧
    (init_idt idt idtAddr isr0 isr1).2.limit = 256 * 16 - 1 := by
  have g1 := idt_set_gate_same (idt_set_gate (init_idt_loop IDT_ENTRIES idt) 0 isr0 0x08 0x8E)
    1 isr1 0x08 0x8E (by decide) h1 (by decide) (by decide)
  have g0 := idt_set_gate_same (init_idt_loop IDT_ENTRIES idt) 0 isr0 0x08 0x8E (by decide) h0
    (by decide) (by decide)
  have e0 : (init_idt idt idtAddr isr0 isr1).1 0
      = (idt_set_gate (init_idt_loop IDT_ENTRIES idt) 0 isr0 0x08 0x8E) 0 :=
    idt_set_gate_other _ 1 isr1 0x08 0x8E 0 (by decide) (by decide)
  refine ⟨?_, ?_, ?_, ?_, g1.1, g1.2.1, g1.2.2.1, g1.2.2.2.1, ?_, rfl⟩
  · rw [e0]; exact g0.1
  · rw [e0]; exact g0.2.1
  · rw [e0]; exact g0.2.2.1
  · rw [e0]; exact g0.2.2.2.1
  · intro v hv hv'
    show (idt_set_gate (idt_set_gate (init_idt_loop IDT_ENTRIES idt) 0 isr0 0x08 0x8E)
      1 isr1 0x08 0x8E) v = zeroGate
    rw [idt_set_gate_other _ _ _ _ _ _ (by decide) (by omega),
      idt_set_gate_other _ _ _ _ _ _ (by decide) (by omega)]
    exact init_idt_loop_zero idt IDT_ENTRIES (le_refl _) v hv'

/-- C12 at an all-zero table with the stubs at 0x100010 and 0x100020. -/
theorem C12_init_idt_two_gates_witness :
    ((init_idt idtZero 0x5000 0x100010 0x100020).1 0).readOffset = 0x100010 ∧
    ((init_idt idtZero 0x5000 0x100010 0x100020).1 1).readOffset = 0x100020 ∧
    (init_idt idtZero 0x5000 0x100010 0x100020).1 33 = zeroGate ∧
    (init_idt idtZero 0x5000 0x100010 0x100020).2.limit = 256 * 16 - 1 :=
  have h := C12_init_idt_two_gates idtZero 0x5000 0x100010 0x100020 (by decide) (by decide)
  ⟨h.1, h.2.2.2.2.1, h.2.2.2.2.2.2.2.2.1 33 (by decide) (by decide), h.2.2.2.2.2.2.2.2.2⟩

/-! ## C18 -/

/-- C18: for every 64-bit address, 16-bit selector, 8-bit flags and vector n in 0..255,
`idt_set_gate(n, base, sel, flags)` stores a gate whose offset fields give the address back as
`offset_low | (offset_middle << 16) | (offset_high << 32)`, with selector = sel, type_attr =
flags, ist = 0 and zero = 0, and every gate other than n is unchanged. -/
theorem C18_idt_set_gate_packs (idt : Nat → idt_entry) (n base sel flags : Nat)
    (hn : n < IDT_ENTRIES) (hb : base < 2 ^ 64) (hs : sel < 2 ^ 16) (hf : flags < 2 ^ 8) :
    ((idt_set_gate idt n base sel flags) n).offset_low
      ||| (((idt_set_gate idt n base sel flags) n).offset_middle <<< 16)
      ||| (((idt_set_gate idt n base sel flags) n).offset_high <<< 32) = base ∧
    ((idt_set_gate idt n base sel flags) n).selector = sel ∧
    ((idt_set_gate idt n base sel flags) n).type_attr = flags ∧
    ((idt_set_gate idt n base sel flags) n).ist = 0 ∧
    ((idt_set_gate idt n base sel flags) n).zero = 0 ∧
    ∀ v, v ≠ n → (idt_set_gate idt n base sel flags) v = idt v :=
  have h := idt_set_gate_same idt n base sel flags hn hb hs hf
  ⟨h.1, h.2.1, h.2.2.1, h.2.2.2.1, h.2.2.2.2,
    fun v hv => idt_set_gate_other idt n base sel flags v hn hv⟩

/-- C18 at the call `idt_set_gate(33, 0xFFFF800000123456, 0x08, 0x8E)`. -/
theorem C18_idt_set_gate_packs_witness :
    ((idt_set_gate idtZero 33 0xFFFF800000123456 0x08 0x8E) 33).offset_low
      ||| (((idt_set_gate idtZero 33 0xFFFF800000123456 0x08 0x8E) 33).offset_middle <<< 16)
      ||| (((idt_set_gate idtZero 33 0xFFFF800000123456 0x08 0x8E) 33).offset_high <<< 32)
      = 0xFFFF800000123456 ∧
    (idt_set_gate idtZero 33 0xFFFF800000123456 0x08 0x8E) 34 = idtZero 34 :=
  have h := C18_idt_set_gate_packs idtZero 33 0xFFFF800000123456 0x08 0x8E
    (by decide) (by decide) (by decide) (by decide)
  ⟨h.1, h.2.2.2.2.2 34 (by decide)⟩
/-! ## The segment table: lemmas -/

/-- What the raw fields of the descriptor written by `gdt_set_gate` read back as. -/
theorem gdt_set_gate_read (gdt : Nat → gdt_entry) (num base limit access gran : Nat)
    (hb : base < 2 ^ 32) (ha : access < 2 ^ 8) :
    ((gdt_set_gate gdt num base limit access gran) num).readBase = base ∧
    ((gdt_set_gate gdt num base limit access gran) num).access = access ∧
    ((gdt_set_gate gdt num base limit access gran) num).readLimit = limit % 2 ^ 20 ∧
    ((gdt_set_gate gdt num base limit access gran) num).readFlags = gran &&& 0xF0 := by
  obtain ⟨hg1, hg2, hg3⟩ := gran_byte (limit >>> 16) gran
  refine ⟨?_, ?_, ?_, ?_⟩
  · simp only [gdt_set_gate, Function.update_same, gdt_entry.readBase]
    rw [and_0xFFFF, and_0xFF, and_0xFF, Nat.shiftRight_eq_div_pow, Nat.shiftRight_eq_div_pow,
      or_shiftLeft_eq_add _ _ 16 (Nat.mod_lt _ (by decide)),
      or_shiftLeft_eq_add _ _ 24 (by norm_num; omega)]
    norm_num
    omega
  · simp only [gdt_set_gate, Function.update_same]
    exact Nat.mod_eq_of_lt ha
  · simp only [gdt_set_gate, Function.update_same, gdt_entry.readLimit]
    rw [hg1, hg2, and_0xFFFF, and_0x0F, Nat.shiftRight_eq_div_pow,
      or_shiftLeft_eq_add _ _ 16 (Nat.mod_lt _ (by decide))]
    norm_num
    omega
  · simp only [gdt_set_gate, Function.update_same, gdt_entry.readFlags]
    rw [hg1, hg3]

/-- A byte that is its own high nibble has a clear low nibble. -/
theorem low_clear_of_high_nibble (g : Nat) (h : g &&& 0xF0 = g) : g &&& 0x0F = 0 := by
  have e : (0xF0 : Nat) &&& 0x0F = 0 := by decide
  rw [← h, Nat.and_assoc, e, Nat.and_zero]

/-! ## C14 -/

/-- C14: after `init_gdt`, whatever the table held before, `gdt[0]` has all six fields 0, the
access bytes of `gdt[1]`..`gdt[4]` are 0x9A, 0x92, 0xFA, 0xF2, so the null descriptor is at
index 0 and nowhere else among the five, and the limit recorded in `gp` is 5 * 8 - 1 = 39. -/
theorem C14_init_gdt_one_null_descriptor (gdt : Nat → gdt_entry) (gdtAddr : Nat) :
    (init_gdt gdt gdtAddr).1 0 = nullDescriptor ∧
    ((init_gdt gdt gdtAddr).1 1).access = 0x9A ∧
    ((init_gdt gdt gdtAddr).1 2).access = 0x92 ∧
    ((init_gdt gdt gdtAddr).1 3).access = 0xFA ∧
    ((init_gdt gdt gdtAddr).1 4).access = 0xF2 ∧
    (∀ i, i < GDT_ENTRIES → ((init_gdt gdt gdtAddr).1 i = nullDescriptor ↔ i = 0)) ∧
    (init_gdt gdt gdtAddr).2.limit = 39 ∧
    (init_gdt gdt gdtAddr).2.limit = 5 * 8 - 1 := by
  have e0 : (init_gdt gdt gdtAddr).1 0 = nullDescriptor := rfl
  have e1 : ((init_gdt gdt gdtAddr).1 1).access = 0x9A := rfl
  have e2 : ((init_gdt gdt gdtAddr).1 2).access = 0x92 := rfl
  have e3 : ((init_gdt gdt gdtAddr).1 3).access = 0xFA := rfl
  have e4 : ((init_gdt gdt gdtAddr).1 4).access = 0xF2 := rfl
  refine ⟨e0, e1, e2, e3, e4, ?_, rfl, rfl⟩
  intro i hi
  have hi' : i < 5 := hi
  have hnull : nullDescriptor.access = 0 := rfl
  constructor
  · intro h
    by_contra hne
    have hcases : i = 1 ∨ i = 2 ∨ i = 3 ∨ i = 4 := by omega
    rcases hcases with rfl | rfl | rfl | rfl
    · rw [h, hnull] at e1; exact absurd e1 (by decide)
    · rw [h, hnull] at e2; exact absurd e2 (by decide)
    · rw [h, hnull] at e3; exact absurd e3 (by decide)
    · rw [h, hnull] at e4; exact absurd e4 (by decide)
  · rintro rfl; exact e0

/-! ## C19 -/

/-- C19: for every 32-bit base, every limit and every 8-bit access and gran, the descriptor
written by `gdt_set_gate` has base fields that reassemble to base, the access byte as passed,
a stored limit (limit_low plus the low nibble of the granularity byte) equal to limit mod 2^20
and a granularity byte whose high nibble is gran & 0xF0; the read-back equals the input exactly
when limit < 2^20 and gran & 0x0F = 0; and no descriptor other than the indexed one changes. -/
theorem C19_gdt_set_gate_packing (gdt : Nat → gdt_entry) (num base limit access gran : Nat)
    (hb : base < 2 ^ 32) (ha : access < 2 ^ 8) (hg : gran < 2 ^ 8) :
    ((gdt_set_gate gdt num base limit access gran) num).base_low
      ||| (((gdt_set_gate gdt num base limit access gran) num).base_middle <<< 16)
      ||| (((gdt_set_gate gdt num base limit access gran) num).base_high <<< 24) = base ∧
    ((gdt_set_gate gdt num base limit access gran) num).access = access ∧
    ((gdt_set_gate gdt num base limit access gran) num).limit_low
      ||| ((((gdt_set_gate gdt num base limit access gran) num).granularity &&& 0x0F) <<< 16)
      = limit % 2 ^ 20 ∧
    ((gdt_set_gate gdt num base limit access gran) num).granularity &&& 0xF0 = gran &&& 0xF0 ∧
    ((((gdt_set_gate gdt num base limit access gran) num).readBase = base ∧
      ((gdt_set_gate gdt num base limit access gran) num).readLimit = limit ∧
      ((gdt_set_gate gdt num base limit access gran) num).access = access ∧
      ((gdt_set_gate gdt num base limit access gran) num).readFlags = gran) ↔
      (limit < 2 ^ 20 ∧ gran &&& 0x0F = 0)) ∧
    (∀ j, j ≠ num → (gdt_set_gate gdt num base limit access gran) j = gdt j) := by
  obtain ⟨h1, h2, h3, h4⟩ := gdt_set_gate_read gdt num base limit access gran hb ha
  refine ⟨h1, h2, h3, h4, ?_, ?_⟩
  · rw [h1, h2, h3, h4]
    constructor
    · rintro ⟨-, hl, -, hf⟩
      refine ⟨?_, low_clear_of_high_nibble gran hf⟩
      rw [← hl]; exact Nat.mod_lt _ (by decide)
    · rintro ⟨hl, hf⟩
      exact ⟨rfl, Nat.mod_eq_of_lt hl, rfl, high_nibble_of_low_clear gran hg hf⟩
  · intro j hj
    simp only [gdt_set_gate, Function.update_noteq hj]

/-- C19 at the code-segment call of `init_gdt`, `gdt_set_gate(1, 0, 0xFFFFFFFF, 0x9A, 0xAF)`:
the limit is stored as 0xFFFFF and the read-back is not the input. -/
theorem C19_gdt_set_gate_packing_witness :
    ((gdt_set_gate gdtZero 1 0 0xFFFFFFFF 0x9A 0xAF) 1).limit_low
      ||| ((((gdt_set_gate gdtZero 1 0 0xFFFFFFFF 0x9A 0xAF) 1).granularity &&& 0x0F) <<< 16)
      = 0xFFFFFFFF % 2 ^ 20 ∧
    ¬ (((gdt_set_gate gdtZero 1 0 0xFFFFFFFF 0x9A 0xAF) 1).readBase = 0 ∧
      ((gdt_set_gate gdtZero 1 0 0xFFFFFFFF 0x9A 0xAF) 1).readLimit = 0xFFFFFFFF ∧
      ((gdt_set_gate gdtZero 1 0 0xFFFFFFFF 0x9A 0xAF) 1).access = 0x9A ∧
      ((gdt_set_gate gdtZero 1 0 0xFFFFFFFF 0x9A 0xAF) 1).readFlags = 0xAF) ∧
    (gdt_set_gate gdtZero 1 0 0xFFFFFFFF 0x9A 0xAF) 2 = gdtZero 2 :=
  have h := C19_gdt_set_gate_packing gdtZero 1 0 0xFFFFFFFF 0x9A 0xAF
    (by decide) (by decide) (by decide)
  ⟨h.2.2.1, fun hall => absurd (h.2.2.2.2.1.1 hall).1 (by decide), h.2.2.2.2.2 2 (by decide)⟩
/-! ## The terminal: lemmas -/

theorem nextRow_lt (row : Nat) (h : row < VGA_HEIGHT) : nextRow row < VGA_HEIGHT := by
  unfold nextRow
  rw [VGA_HEIGHT, WORD_eq] at *
  split <;> omega

/-- One `terminal_putchar` keeps the row below 25 and the column below 80. -/
theorem terminal_putchar_bounds (t : Terminal) (c : Int) (hr : t.terminal_row < VGA_HEIGHT)
    (hc : t.terminal_column < VGA_WIDTH) :
    (terminal_putchar t c).terminal_row < VGA_HEIGHT ∧
    (terminal_putchar t c).terminal_column < VGA_WIDTH := by
  have hn := nextRow_lt t.terminal_row hr
  unfold terminal_putchar
  have h80 : 0 < VGA_WIDTH := by decide
  split
  · exact ⟨hn, h80⟩
  · split
    · exact ⟨hn, h80⟩
    · rename_i hne
      refine ⟨hr, ?_⟩
      rw [VGA_WIDTH, WORD_eq] at *
      simp only
      omega

/-- Any run of `terminal_putchar` keeps the row below 25 and the column below 80. -/
theorem terminal_foldl_bounds (data : List Int) :
    ∀ t : Terminal, t.terminal_row < VGA_HEIGHT → t.terminal_column < VGA_WIDTH →
      (data.foldl terminal_putchar t).terminal_row < VGA_HEIGHT ∧
      (data.foldl terminal_putchar t).terminal_column < VGA_WIDTH := by
  induction data with
  | nil => intro t hr hc; exact ⟨hr, hc⟩
  | cons c rest ih =>
    intro t hr hc
    obtain ⟨hr1, hc1⟩ := terminal_putchar_bounds t c hr hc
    exact ih (terminal_putchar t c) hr1 hc1

/-- With the row below 25 and the column below 80 the cell index is below 2000. -/
theorem cellIndex_lt (t : Terminal) (hr : t.terminal_row < VGA_HEIGHT)
    (hc : t.terminal_column < VGA_WIDTH) :
    cellIndex t = t.terminal_row * 80 + t.terminal_column ∧ cellIndex t < 2000 := by
  unfold cellIndex
  rw [VGA_HEIGHT] at hr
  rw [VGA_WIDTH] at hc ⊢
  have hw : t.terminal_row * 80 + t.terminal_column < WORD := by rw [WORD_eq]; omega
  rw [Nat.mod_eq_of_lt hw]
  omega

/-- A character other than newline changes no cell but the one at the cell index. -/
theorem terminal_putchar_buffer (t : Terminal) (c : Int) (hc : c ≠ 10) (j : Nat)
    (hj : j ≠ cellIndex t) : (terminal_putchar t c).buffer j = t.buffer j := by
  unfold terminal_putchar
  rw [if_neg hc]
  simp only
  split <;> exact Function.update_noteq hj _ _

/-- A newline changes no cell and sets the column to 0. -/
theorem terminal_putchar_newline (t : Terminal) :
    (terminal_putchar t 10).buffer = t.buffer ∧ (terminal_putchar t 10).terminal_column = 0 := by
  unfold terminal_putchar
  rw [if_pos rfl]
  exact ⟨rfl, rfl⟩

/-! ## C20 -/

/-- C20: after `init_vga`, whatever characters have been passed to `terminal_putchar`, the row
is below 25 and the column below 80, so the cell index `row * 80 + column` is below 2000; a
further character other than newline changes that cell only, a newline changes no cell and
sets the column to 0; and `terminal_write` and `terminal_writestring`, which pass their
characters to `terminal_putchar` one by one, keep the same bounds. -/
theorem C20_terminal_stays_in_buffer (t0 : Terminal) (data : List Int) :
    (data.foldl terminal_putchar (init_vga t0)).terminal_row < 25 ∧
    (data.foldl terminal_putchar (init_vga t0)).terminal_column < 80 ∧
    cellIndex (data.foldl terminal_putchar (init_vga t0))
      = (data.foldl terminal_putchar (init_vga t0)).terminal_row * 80
        + (data.foldl terminal_putchar (init_vga t0)).terminal_column ∧
    cellIndex (data.foldl terminal_putchar (init_vga t0)) < 2000 ∧
    (∀ c : Int, c ≠ 10 → ∀ j, j ≠ cellIndex (data.foldl terminal_putchar (init_vga t0)) →
      (terminal_putchar (data.foldl terminal_putchar (init_vga t0)) c).buffer j
        = (data.foldl terminal_putchar (init_vga t0)).buffer j) ∧
    ((terminal_putchar (data.foldl terminal_putchar (init_vga t0)) 10).buffer
        = (data.foldl terminal_putchar (init_vga t0)).buffer ∧
      (terminal_putchar (data.foldl terminal_putchar (init_vga t0)) 10).terminal_column = 0) ∧
    (∀ (text : List Int) (size : Nat),
      terminal_write (data.foldl terminal_putchar (init_vga t0)) text size
        = (data ++ text.take size).foldl terminal_putchar (init_vga t0) ∧
      (terminal_write (data.foldl terminal_putchar (init_vga t0)) text size).terminal_row < 25 ∧
      (terminal_write (data.foldl terminal_putchar (init_vga t0)) text size).terminal_column
        < 80) ∧
    (∀ text : List Int,
      terminal_writestring (data.foldl terminal_putchar (init_vga t0)) text
        = (data ++ text.take (strlen text)).foldl terminal_putchar (init_vga t0) ∧
      (terminal_writestring (data.foldl terminal_putchar (init_vga t0)) text).terminal_row < 25 ∧
      (terminal_writestring (data.foldl terminal_putchar (init_vga t0)) text).terminal_column
        < 80) := by
  have h0r : (init_vga t0).terminal_row < VGA_HEIGHT := show 0 < VGA_HEIGHT by decide
  have h0c : (init_vga t0).terminal_column < VGA_WIDTH := show 0 < VGA_WIDTH by decide
  obtain ⟨hr, hc⟩ := terminal_foldl_bounds data (init_vga t0) h0r h0c
  obtain ⟨hidx, hlt⟩ := cellIndex_lt _ hr hc
  refine ⟨hr, hc, hidx, hlt, fun c hne j hj => terminal_putchar_buffer _ c hne j hj,
    terminal_putchar_newline _, ?_, ?_⟩
  · intro text size
    have hw := terminal_foldl_bounds (text.take size) _ hr hc
    exact ⟨by rw [terminal_write, List.foldl_append], hw.1, hw.2⟩
  · intro text
    have hw := terminal_foldl_bounds (text.take (strlen text)) _ hr hc
    exact ⟨by rw [terminal_writestring, terminal_write, List.foldl_append], hw.1, hw.2⟩

/-- C20 at the text `"Hi\nyou"` written after `init_vga`: the cursor is at row 1, column 3,
cell index 83. -/
theorem C20_terminal_stays_in_buffer_witness :
    (sampleText.foldl terminal_putchar (init_vga rawTerminal)).terminal_row < 25 ∧
    (sampleText.foldl terminal_putchar (init_vga rawTerminal)).terminal_column < 80 ∧
    cellIndex (sampleText.foldl terminal_putchar (init_vga rawTerminal)) = 83 ∧
    cellIndex (sampleText.foldl terminal_putchar (init_vga rawTerminal)) < 2000 :=
  have h := C20_terminal_stays_in_buffer rawTerminal sampleText
  ⟨h.1, h.2.1, rfl, h.2.2.2.1⟩

/-! ## C13 -/

/-- C13, the code at the failing input: `isr_handler` never calls a callback. Whatever is
registered, the record of calls after `isr_handler` is the record before it; with the keyboard
callback registered for vector 33 in the boot world, the table does hold the callback, yet
`isr_handler` only prints its message (the cursor moves to row 1, column 0) and the record of
calls stays empty. -/
theorem C13_isr_handler_calls_no_callback :
    (∀ (w : IsrWorld) (v cb : Nat),
      (isr_handler (register_interrupt_handler w v cb)).invoked = w.invoked) ∧
    (register_interrupt_handler bootWorld 33 0x100400).handlers 33 = some 0x100400 ∧
    (isr_handler (register_interrupt_handler bootWorld 33 0x100400)).invoked = [] ∧
    (isr_handler (register_interrupt_handler bootWorld 33 0x100400)).term.terminal_row = 1 ∧
    (isr_handler (register_interrupt_handler bootWorld 33 0x100400)).term.terminal_column = 0 :=
  ⟨fun w v cb => by simp only [isr_handler, register_interrupt_handler], rfl, rfl, rfl, rfl⟩
/-! ## Process creation: lemmas -/

/-- With an Inactive slot in the table, `create_process` runs the branch body on the lowest
Inactive slot and returns its index. -/
theorem create_process_eq (s : Kernel) (entry_point : Nat)
    (hfree : ∃ j, j < MAX_PROCESSES ∧ (s.processes j).active = false) :
    ∃ i : Nat, i < MAX_PROCESSES ∧ (s.processes i).active = false ∧
      (∀ j, j < i → (s.processes j).active = true) ∧
      create_process s entry_point = ((i : Int), create_process_at s entry_point i) := by
  have hex : ∃ j, (s.processes j).active = false := by
    obtain ⟨j, _, hj⟩ := hfree; exact ⟨j, hj⟩
  have hlt : Nat.find hex < MAX_PROCESSES := by
    obtain ⟨j, hj10, hj⟩ := hfree
    exact lt_of_le_of_lt (Nat.find_min' hex hj) hj10
  have hlow : ∀ j, j < Nat.find hex → (s.processes j).active = true := by
    intro j hj
    have := Nat.find_min hex hj
    simpa using this
  exact ⟨Nat.find hex, hlt, Nat.find_spec hex, hlow,
    create_process_scan_first s entry_point (Nat.find hex) (Nat.find_spec hex) MAX_PROCESSES 0
      (Nat.zero_le _) (by omega) (fun j _ hj => hlow j hj)⟩

/-- One `*(--stack) = v` when the pointer does not wrap. -/
theorem push_sub (sp sp1 : Nat) (m : Memory) (v : Nat) (h : sp1 + 8 = sp) (hw : sp < WORD) :
    push (sp, m) v = (sp1, write64 m sp1 v) := by
  subst h
  have e : (sp1 + 8 + (WORD - 8)) % WORD = sp1 := by rw [WORD_eq] at *; omega
  simp only [push, e]

/-- The loop `for (int j = 0; j < 7; j++) *(--stack) = 0;` is seven pushes of 0. -/
theorem pushZeros_seven (st : Nat × Memory) :
    pushZeros 7 st = push (push (push (push (push (push (push st 0) 0) 0) 0) 0) 0) 0 := rfl

/-- The state `create_process` leaves in slot `i` when the stack fits in the heap: nine words
stored downwards from the top of the new stack. -/
theorem create_process_at_fits (s : Kernel) (entry_point i : Nat)
    (hroom : s.heap_current + 4096 ≤ heap_end) :
    (create_process_at s entry_point i).heap_current = s.heap_current + 4096 ∧
    ((create_process_at s entry_point i).processes i).rsp = s.heap_current + 4024 ∧
    (create_process_at s entry_point i).mem =
      write64 (write64 (write64 (write64 (write64 (write64 (write64 (write64 (write64 s.mem
        (s.heap_current + 4088) entry_point) (s.heap_current + 4080) 0)
        (s.heap_current + 4072) 0) (s.heap_current + 4064) 0) (s.heap_current + 4056) 0)
        (s.heap_current + 4048) 0) (s.heap_current + 4040) 0) (s.heap_current + 4032) 0)
        (s.heap_current + 4024) 0 := by
  have hend : heap_end = 0x3000000 := by decide
  have hw : s.heap_current + 4096 < WORD := by rw [WORD_eq]; omega
  have hT : (s.heap_current + 4096) % WORD = s.heap_current + 4096 := Nat.mod_eq_of_lt hw
  have hst : pushZeros 7 (push (push ((s.heap_current + 4096), s.mem) entry_point) 0)
      = (s.heap_current + 4024,
        write64 (write64 (write64 (write64 (write64 (write64 (write64 (write64 (write64 s.mem
        (s.heap_current + 4088) entry_point) (s.heap_current + 4080) 0)
        (s.heap_current + 4072) 0) (s.heap_current + 4064) 0) (s.heap_current + 4056) 0)
        (s.heap_current + 4048) 0) (s.heap_current + 4040) 0) (s.heap_current + 4032) 0)
        (s.heap_current + 4024) 0) := by
    have p1 : ∀ m v, push (s.heap_current + 4096, m) v
        = (s.heap_current + 4088, write64 m (s.heap_current + 4088) v) :=
      fun m v => push_sub _ _ m v (by omega) hw
    have p2 : ∀ m v, push (s.heap_current + 4088, m) v
        = (s.heap_current + 4080, write64 m (s.heap_current + 4080) v) :=
      fun m v => push_sub _ _ m v (by omega) (by omega)
    have p3 : ∀ m v, push (s.heap_current + 4080, m) v
        = (s.heap_current + 4072, write64 m (s.heap_current + 4072) v) :=
      fun m v => push_sub _ _ m v (by omega) (by omega)
    have p4 : ∀ m v, push (s.heap_current + 4072, m) v
        = (s.heap_current + 4064, write64 m (s.heap_current + 4064) v) :=
      fun m v => push_sub _ _ m v (by omega) (by omega)
    have p5 : ∀ m v, push (s.heap_current + 4064, m) v
        = (s.heap_current + 4056, write64 m (s.heap_current + 4056) v) :=
      fun m v => push_sub _ _ m v (by omega) (by omega)
    have p6 : ∀ m v, push (s.heap_current + 4056, m) v
        = (s.heap_current + 4048, write64 m (s.heap_current + 4048) v) :=
      fun m v => push_sub _ _ m v (by omega) (by omega)
    have p7 : ∀ m v, push (s.heap_current + 4048, m) v
        = (s.heap_current + 4040, write64 m (s.heap_current + 4040) v) :=
      fun m v => push_sub _ _ m v (by omega) (by omega)
    have p8 : ∀ m v, push (s.heap_current + 4040, m) v
        = (s.heap_current + 4032, write64 m (s.heap_current + 4032) v) :=
      fun m v => push_sub _ _ m v (by omega) (by omega)
    have p9 : ∀ m v, push (s.heap_current + 4032, m) v
        = (s.heap_current + 4024, write64 m (s.heap_current + 4024) v) :=
      fun m v => push_sub _ _ m v (by omega) (by omega)
    rw [pushZeros_seven]
    simp only [p1, p2, p3, p4, p5, p6, p7, p8, p9]
  simp only [create_process_at, kmalloc_fits s 4096 hroom, hT, hst, Function.update_same,
    and_self]

/-! ## C15 -/

/-- C15: when a slot is free and the heap has 4096 bytes left at cursor `b`, `create_process`
takes its stack at `b` (the cursor moves to `b + 4096`) and builds a frame of nine 8-byte words
at the top of it: the word at `b + 4096 - 8` is the entry point, the eight words at
`b + 4096 - 16`, ..., `b + 4096 - 72` are 0, the saved stack pointer of the new PCB is
`b + 4096 - 72`, and no byte outside `[b + 4096 - 72, b + 4096)`, hence none outside
`[b, b + 4096)`, is changed. -/
theorem C15_create_process_initial_frame (s : Kernel) (entry_point : Nat)
    (hfree : ∃ j, j < MAX_PROCESSES ∧ (s.processes j).active = false)
    (hroom : s.heap_current + 4096 ≤ heap_end) (he : entry_point < WORD) :
    ∃ i : Nat, i < MAX_PROCESSES ∧ (create_process s entry_point).1 = (i : Int) ∧
      (kmalloc s 4096).1 = s.heap_current ∧
      (create_process s entry_point).2.heap_current = s.heap_current + 4096 ∧
      read64 (create_process s entry_point).2.mem (s.heap_current + 4096 - 8) = entry_point ∧
      (∀ k, 2 ≤ k → k ≤ 9 →
        read64 (create_process s entry_point).2.mem (s.heap_current + 4096 - 8 * k) = 0) ∧
      ((create_process s entry_point).2.processes i).rsp = s.heap_current + 4096 - 72 ∧
      (∀ x, x < s.heap_current + 4096 - 72 ∨ s.heap_current + 4096 ≤ x →
        (create_process s entry_point).2.mem x = s.mem x) ∧
      (∀ x, x < s.heap_current ∨ s.heap_current + 4096 ≤ x →
        (create_process s entry_point).2.mem x = s.mem x) := by
  obtain ⟨i, hi, -, -, hrun⟩ := create_process_eq s entry_point hfree
  obtain ⟨hheap, hrsp, hmem⟩ := create_process_at_fits s entry_point i hroom
  have hend : heap_end = 0x3000000 := by decide
  have hW : WORD = 18446744073709551616 := WORD_eq
  have hz : (0 : Nat) < WORD := by decide
  have hout : ∀ x, x < s.heap_current + 4096 - 72 ∨ s.heap_current + 4096 ≤ x →
      (create_process s entry_point).2.mem x = s.mem x := by
    intro x hx
    rw [hrun]
    show (create_process_at s entry_point i).mem x = s.mem x
    rw [hmem]
    rw [write64_out _ _ _ _ (by omega) (by omega), write64_out _ _ _ _ (by omega) (by omega),
      write64_out _ _ _ _ (by omega) (by omega), write64_out _ _ _ _ (by omega) (by omega),
      write64_out _ _ _ _ (by omega) (by omega), write64_out _ _ _ _ (by omega) (by omega),
      write64_out _ _ _ _ (by omega) (by omega), write64_out _ _ _ _ (by omega) (by omega),
      write64_out _ _ _ _ (by omega) (by omega)]
  refine ⟨i, hi, by rw [hrun], by rw [kmalloc_fits s 4096 hroom], by rw [hrun]; exact hheap,
    ?_, ?_, ?_, hout, fun x hx => hout x (by omega)⟩
  · rw [hrun]
    show read64 (create_process_at s entry_point i).mem _ = _
    rw [hmem, show s.heap_current + 4096 - 8 = s.heap_current + 4088 by omega]
    simp (disch := omega) only [read64_write64_other, read64_write64_same]
  · intro k hk2 hk9
    rw [hrun]
    show read64 (create_process_at s entry_point i).mem _ = _
    rw [hmem]
    interval_cases k
    · rw [show s.heap_current + 4096 - 8 * 2 = s.heap_current + 4080 by omega]
      simp (disch := omega) only [read64_write64_other, read64_write64_same]
    · rw [show s.heap_current + 4096 - 8 * 3 = s.heap_current + 4072 by omega]
      simp (disch := omega) only [read64_write64_other, read64_write64_same]
    · rw [show s.heap_current + 4096 - 8 * 4 = s.heap_current + 4064 by omega]
      simp (disch := omega) only [read64_write64_other, read64_write64_same]
    · rw [show s.heap_current + 4096 - 8 * 5 = s.heap_current + 4056 by omega]
      simp (disch := omega) only [read64_write64_other, read64_write64_same]
    · rw [show s.heap_current + 4096 - 8 * 6 = s.heap_current + 4048 by omega]
      simp (disch := omega) only [read64_write64_other, read64_write64_same]
    · rw [show s.heap_current + 4096 - 8 * 7 = s.heap_current + 4040 by omega]
      simp (disch := omega) only [read64_write64_other, read64_write64_same]
    · rw [show s.heap_current + 4096 - 8 * 8 = s.heap_current + 4032 by omega]
      simp (disch := omega) only [read64_write64_other, read64_write64_same]
    · rw [show s.heap_current + 4096 - 8 * 9 = s.heap_current + 4024 by omega]
      simp (disch := omega) only [read64_write64_other, read64_write64_same]
  · rw [hrun]
    show ((create_process_at s entry_point i).processes i).rsp = _
    rw [hrsp]; omega

/-- C15 at `tableTwo` (cursor `0x2002000`, slot 2 free), entry point `0x100000`. -/
theorem C15_create_process_initial_frame_witness :
    ∃ i : Nat, i < MAX_PROCESSES ∧ (create_process tableTwo 0x100000).1 = (i : Int) ∧
      (kmalloc tableTwo 4096).1 = tableTwo.heap_current ∧
      (create_process tableTwo 0x100000).2.heap_current = tableTwo.heap_current + 4096 ∧
      read64 (create_process tableTwo 0x100000).2.mem (tableTwo.heap_current + 4096 - 8)
        = 0x100000 ∧
      (∀ k, 2 ≤ k → k ≤ 9 →
        read64 (create_process tableTwo 0x100000).2.mem (tableTwo.heap_current + 4096 - 8 * k)
          = 0) ∧
      ((create_process tableTwo 0x100000).2.processes i).rsp
        = tableTwo.heap_current + 4096 - 72 ∧
      (∀ x, x < tableTwo.heap_current + 4096 - 72 ∨ tableTwo.heap_current + 4096 ≤ x →
        (create_process tableTwo 0x100000).2.mem x = tableTwo.mem x) ∧
      (∀ x, x < tableTwo.heap_current ∨ tableTwo.heap_current + 4096 ≤ x →
        (create_process tableTwo 0x100000).2.mem x = tableTwo.mem x) :=
  C15_create_process_initial_frame tableTwo 0x100000 ⟨2, by decide, rfl⟩ (by decide) (by decide)
/-! ## C16 -/

/-- The index the loop looks at is always inside the table. -/
theorem scheduleLoop_index_lt (c : Int) :
    (Int.tmod (c + 1) (MAX_PROCESSES : Int)).toNat < MAX_PROCESSES := by
  have h := Int.tmod_lt_of_pos (c + 1) (show (0 : Int) < 10 by decide)
  show (Int.tmod (c + 1) 10).toNat < 10
  omega

/-- With no Active slot the loop never ends, whatever the cursor. -/
theorem scheduleLoop_no_active (procs : Nat → Process)
    (hnone : ∀ i, i < MAX_PROCESSES → (procs i).active = false) :
    ∀ (fuel : Nat) (c : Int), scheduleLoop procs fuel c = none := by
  intro fuel
  induction fuel with
  | zero => intro c; rfl
  | succ fuel ih =>
    intro c
    unfold scheduleLoop
    simp only [hnone _ (scheduleLoop_index_lt c), Bool.false_eq_true, if_false]
    exact ih _

/-- The loop does not end in fewer turns than the distance to the first Active slot. -/
theorem scheduleLoop_short (procs : Nat → Process) :
    ∀ (fuel k : Nat) (c : Int), -1 ≤ c → c ≤ 9 → fuel < k →
      (∀ j : Nat, 1 ≤ j → j < k → (procs ((c + (j : Int)) % 10).toNat).active = false) →
      scheduleLoop procs fuel c = none := by
  intro fuel
  induction fuel with
  | zero => intro k c _ _ _ _; rfl
  | succ fuel ih =>
    intro k c hc hc' hk hnone
    have htm : Int.tmod (c + 1) (MAX_PROCESSES : Int) = (c + 1) % 10 := by
      rw [Int.tmod_eq_emod (by omega) (by simp [MAX_PROCESSES])]; rfl
    have h1 : (procs ((c + 1) % 10).toNat).active = false := by
      simpa using hnone 1 (le_refl 1) (by omega)
    have hidx : ∀ j : Nat, ((c + 1) % 10 + (j : Int)) % 10 = (c + ((j + 1 : Nat) : Int)) % 10 := by
      intro j; push_cast; omega
    unfold scheduleLoop
    simp only [htm, h1, Bool.false_eq_true, if_false]
    exact ih (k - 1) ((c + 1) % 10) (by omega) (by omega) (by omega)
      (fun j hj hjk => by rw [hidx]; exact hnone (j + 1) (by omega) (by omega))

/-- C16: with an Active slot in the table and the cursor in -1..MAX_PROCESSES-1, the loop of
`schedule` ends after some number k of turns, 1 <= k <= MAX_PROCESSES (it has not ended with
fewer turns and gives the same result with more), and leaves the cursor at an index in
0..MAX_PROCESSES-1 whose slot is Active; with no Active slot the loop does not end, however
many turns it is given. -/
theorem C16_schedule_loop_termination (procs : Nat → Process) (c : Int)
    (hc : -1 ≤ c) (hc' : c < (MAX_PROCESSES : Int)) :
    ((∃ i, i < MAX_PROCESSES ∧ (procs i).active = true) →
      ∃ (k : Nat) (j : Int), 1 ≤ k ∧ k ≤ MAX_PROCESSES ∧
        (∀ fuel, k ≤ fuel → scheduleLoop procs fuel c = some j) ∧
        (∀ fuel, fuel < k → scheduleLoop procs fuel c = none) ∧
        0 ≤ j ∧ j < (MAX_PROCESSES : Int) ∧ (procs j.toNat).active = true) ∧
    ((∀ i, i < MAX_PROCESSES → (procs i).active = false) →
      ∀ fuel, scheduleLoop procs fuel c = none) := by
  have h10 : ((MAX_PROCESSES : Nat) : Int) = 10 := rfl
  rw [h10] at hc' ⊢
  constructor
  · intro hact
    obtain ⟨k, hk1, hk10, hka, hkn⟩ := exists_first_active procs c hc (by omega) hact
    refine ⟨k, (c + (k : Int)) % 10, hk1, hk10, ?_, ?_, by omega, by omega, hka⟩
    · intro fuel hfuel
      exact scheduleLoop_first procs k fuel c hc (by omega) hk1 hfuel hka hkn
    · intro fuel hfuel
      exact scheduleLoop_short procs fuel k c hc (by omega) hfuel hkn
  · intro hnone fuel
    exact scheduleLoop_no_active procs hnone fuel c

/-- C16 at the table of `table257` with cursor 7 (the loop ends at slot 2 after 5 turns, not
after 4) and at a table with no Active slot (no result after 1000 turns). -/
theorem C16_schedule_loop_termination_witness :
    (∃ (k : Nat) (j : Int), 1 ≤ k ∧ k ≤ MAX_PROCESSES ∧
        (∀ fuel, k ≤ fuel → scheduleLoop table257.processes fuel 7 = some j) ∧
        (∀ fuel, fuel < k → scheduleLoop table257.processes fuel 7 = none) ∧
        0 ≤ j ∧ j < (MAX_PROCESSES : Int) ∧ (table257.processes j.toNat).active = true) ∧
    scheduleLoop tableNone 1000 7 = none :=
  ⟨(C16_schedule_loop_termination table257.processes 7 (by decide) (by decide)).1
      ⟨2, by decide, rfl⟩,
    (C16_schedule_loop_termination tableNone 7 (by decide) (by decide)).2 (fun _ _ => rfl) 1000⟩
/-! ## Round robin: the Active slots in ascending order -/

theorem activeCount_eq (procs : Nat → Process) :
    activeCount procs = (activeSlots procs).length := rfl

theorem mem_activeSlots (procs : Nat → Process) (x : Nat) :
    x ∈ activeSlots procs ↔ x < MAX_PROCESSES ∧ (procs x).active = true := by
  simp [activeSlots, List.mem_filter, List.mem_range]

theorem slotAt_eq (procs : Nat → Process) (j : Nat) (hj : j < activeCount procs) :
    slotAt procs j = (activeSlots procs)[j] :=
  List.getD_eq_getElem _ _ hj

/-- The `j`-th Active slot is a slot of the table and is Active. -/
theorem slotAt_active (procs : Nat → Process) (j : Nat) (hj : j < activeCount procs) :
    slotAt procs j < MAX_PROCESSES ∧ (procs (slotAt procs j)).active = true := by
  rw [slotAt_eq procs j hj]
  exact (mem_activeSlots procs _).1 (List.getElem_mem _)

/-- Every Active slot of the table is the `m`-th Active slot for some `m`. -/
theorem exists_slotAt (procs : Nat → Process) (x : Nat) (hx : x < MAX_PROCESSES)
    (hact : (procs x).active = true) : ∃ m, m < activeCount procs ∧ slotAt procs m = x := by
  obtain ⟨m, hm, he⟩ := List.mem_iff_getElem.1 ((mem_activeSlots procs x).2 ⟨hx, hact⟩)
  exact ⟨m, hm, by rw [slotAt_eq procs m hm]; exact he⟩

/-- The Active slots are listed in strictly ascending order. -/
theorem slotAt_lt (procs : Nat → Process) (a b : Nat) (hab : a < b) (hb : b < activeCount procs) :
    slotAt procs a < slotAt procs b := by
  have hp : List.Pairwise (· < ·) (activeSlots procs) :=
    List.Pairwise.filter _ (List.pairwise_lt_range MAX_PROCESSES)
  have ha : a < activeCount procs := lt_trans hab hb
  rw [slotAt_eq procs a ha, slotAt_eq procs b hb]
  exact List.pairwise_iff_getElem.1 hp a b ha hb hab

theorem slotAt_le (procs : Nat → Process) (a b : Nat) (hab : a ≤ b) (hb : b < activeCount procs) :
    slotAt procs a ≤ slotAt procs b := by
  rcases Nat.lt_or_ge a b with h | h
  · exact le_of_lt (slotAt_lt procs a b h hb)
  · have : a = b := le_antisymm hab h
    rw [this]

/-- Two positions in the ascending list with the same slot are the same position. -/
theorem slotAt_inj (procs : Nat → Process) (a b : Nat) (ha : a < activeCount procs)
    (hb : b < activeCount procs) (h : slotAt procs a = slotAt procs b) : a = b := by
  rcases Nat.lt_trichotomy a b with hlt | heq | hgt
  · have := slotAt_lt procs a b hlt hb; omega
  · exact heq
  · have := slotAt_lt procs b a hgt ha; omega

/-- An Active slot strictly between two neighbours of the ascending list does not exist. -/
theorem not_active_between (procs : Nat → Process) (j x : Nat) (hj : j + 1 < activeCount procs)
    (h1 : slotAt procs j < x) (h2 : x < slotAt procs (j + 1)) : (procs x).active = false := by
  cases hb : (procs x).active
  · rfl
  · exfalso
    have hx : x < MAX_PROCESSES := lt_trans h2 (slotAt_active procs (j + 1) hj).1
    obtain ⟨m, hm, he⟩ := exists_slotAt procs x hx hb
    rcases Nat.lt_or_ge j m with hjm | hjm
    · have := slotAt_le procs (j + 1) m hjm hm; omega
    · have := slotAt_le procs m j hjm (by omega); omega

/-- No slot above the last Active slot is Active. -/
theorem not_active_above (procs : Nat → Process) (j x : Nat) (hj : j + 1 = activeCount procs)
    (h1 : slotAt procs j < x) (hx : x < MAX_PROCESSES) : (procs x).active = false := by
  cases hb : (procs x).active
  · rfl
  · exfalso
    obtain ⟨m, hm, he⟩ := exists_slotAt procs x hx hb
    have := slotAt_le procs m j (by omega) (by omega); omega

/-- No slot below the first Active slot is Active. -/
theorem not_active_below (procs : Nat → Process) (x : Nat) (h1 : x < slotAt procs 0)
    (hx : x < MAX_PROCESSES) : (procs x).active = false := by
  cases hb : (procs x).active
  · rfl
  · exfalso
    obtain ⟨m, hm, he⟩ := exists_slotAt procs x hx hb
    have := slotAt_le procs 0 m (Nat.zero_le _) hm; omega

/-! ## Round robin: one step -/

/-- From the `j`-th Active slot the loop moves to the next one in the list, and from the last
one back to the first. -/
theorem nextCursor_slotAt (procs : Nat → Process) (j : Nat) (hj : j < activeCount procs) :
    nextCursor procs (slotAt procs j : Int)
      = (slotAt procs ((j + 1) % activeCount procs) : Int) := by
  obtain ⟨hlt, -⟩ := slotAt_active procs j hj
  have hlt' : slotAt procs j < 10 := hlt
  unfold nextCursor
  rcases Nat.lt_or_ge (j + 1) (activeCount procs) with hnext | hlast
  · -- the next Active slot is further up the table
    obtain ⟨hlt2, hact2⟩ := slotAt_active procs (j + 1) hnext
    have hlt2' : slotAt procs (j + 1) < 10 := hlt2
    have hup := slotAt_lt procs j (j + 1) (Nat.lt_succ_self j) hnext
    have hidx : (((slotAt procs j : Int) + ((slotAt procs (j + 1) - slotAt procs j : Nat) : Int))
        % 10) = (slotAt procs (j + 1) : Int) := by omega
    rw [Nat.mod_eq_of_lt hnext,
      scheduleLoop_first procs (slotAt procs (j + 1) - slotAt procs j) MAX_PROCESSES
        (slotAt procs j : Int) (by omega) (by omega) (by omega)
        (by show _ ≤ 10; omega)
        (by rw [hidx]; simpa using hact2)
        (fun t ht1 ht2 => by
          have ht : (((slotAt procs j : Int) + (t : Int)) % 10).toNat = slotAt procs j + t := by
            omega
          rw [ht]
          exact not_active_between procs j _ hnext (by omega) (by omega)),
      hidx]
    rfl
  · -- the last Active slot: wrap to the first
    have hK : j + 1 = activeCount procs := by omega
    have h0 : 0 < activeCount procs := by omega
    obtain ⟨hlt0, hact0⟩ := slotAt_active procs 0 h0
    have hlt0' : slotAt procs 0 < 10 := hlt0
    have hle := slotAt_le procs 0 j (Nat.zero_le _) hj
    have hidx : (((slotAt procs j : Int) + ((slotAt procs 0 + 10 - slotAt procs j : Nat) : Int))
        % 10) = (slotAt procs 0 : Int) := by omega
    have hmod : (j + 1) % activeCount procs = 0 := by rw [hK]; exact Nat.mod_self _
    rw [hmod,
      scheduleLoop_first procs (slotAt procs 0 + 10 - slotAt procs j) MAX_PROCESSES
        (slotAt procs j : Int) (by omega) (by omega) (by omega)
        (by show _ ≤ 10; omega)
        (by rw [hidx]; simpa using hact0)
        (fun t ht1 ht2 => by
          rcases Nat.lt_or_ge (slotAt procs j + t) 10 with hs | hs
          · have ht : (((slotAt procs j : Int) + (t : Int)) % 10).toNat = slotAt procs j + t := by
              omega
            rw [ht]
            exact not_active_above procs j _ hK (by omega) hs
          · have ht : (((slotAt procs j : Int) + (t : Int)) % 10).toNat
                = slotAt procs j + t - 10 := by omega
            rw [ht]
            exact not_active_below procs _ (by omega) (by show _ < 10; omega)),
      hidx]
    rfl

/-- From any cursor in range the loop moves to some Active slot, and does so for any fuel of
`MAX_PROCESSES` or more. -/
theorem nextCursor_any (procs : Nat → Process) (c : Int) (hc : -1 ≤ c) (hc' : c ≤ 9)
    (hK : 1 ≤ activeCount procs) :
    ∃ j0, j0 < activeCount procs ∧ nextCursor procs c = (slotAt procs j0 : Int) ∧
      ∀ fuel, MAX_PROCESSES ≤ fuel → scheduleLoop procs fuel c = some (nextCursor procs c) := by
  obtain ⟨h0lt, h0act⟩ := slotAt_active procs 0 hK
  obtain ⟨k, hk1, hk10, hka, hkn⟩ :=
    exists_first_active procs c hc hc' ⟨slotAt procs 0, h0lt, h0act⟩
  have hloop : ∀ fuel, MAX_PROCESSES ≤ fuel →
      scheduleLoop procs fuel c = some ((c + (k : Int)) % 10) :=
    fun fuel hf => scheduleLoop_first procs k fuel c hc hc' hk1 (le_trans hk10 hf) hka hkn
  have hnext : nextCursor procs c = (c + (k : Int)) % 10 := by
    unfold nextCursor; rw [hloop MAX_PROCESSES (le_refl _)]; rfl
  obtain ⟨m, hm, he⟩ := exists_slotAt procs ((c + (k : Int)) % 10).toNat
    (by show _ < 10; omega) hka
  refine ⟨m, hm, ?_, fun fuel hf => by rw [hnext]; exact hloop fuel hf⟩
  rw [hnext, he]
  omega
/-! ## Round robin: successive calls -/

/-- Tables with the same `active` flags have the same list of Active slots. -/
theorem activeSlots_congr (p q : Nat → Process) (h : ∀ i, (p i).active = (q i).active) :
    activeSlots p = activeSlots q := by
  unfold activeSlots
  exact List.filter_congr (fun i _ => h i)

theorem slotAt_congr (p q : Nat → Process) (h : ∀ i, (p i).active = (q i).active) (j : Nat) :
    slotAt p j = slotAt q j := by
  unfold slotAt; rw [activeSlots_congr p q h]

theorem activeCount_congr (p q : Nat → Process) (h : ∀ i, (p i).active = (q i).active) :
    activeCount p = activeCount q := by
  rw [activeCount_eq, activeCount_eq, activeSlots_congr p q h]

/-- One call of `schedule` from a cursor in range, with an Active slot in the table. -/
theorem schedule_step (s : Kernel) (fuel : Nat) (hc : -1 ≤ s.current_process)
    (hc' : s.current_process ≤ 9) (hK : 1 ≤ activeCount s.processes)
    (hfuel : MAX_PROCESSES ≤ fuel) :
    ∃ s1 j0, schedule fuel s = some s1 ∧ j0 < activeCount s.processes ∧
      s1.current_process = (slotAt s.processes j0 : Int) ∧
      s1.current_process = nextCursor (saveRsp s) s.current_process ∧
      s1.processes = saveRsp s := by
  have hcong := activeCount_congr (saveRsp s) s.processes (saveRsp_active s)
  obtain ⟨j0, hj0, hnext, hloop⟩ :=
    nextCursor_any (saveRsp s) s.current_process hc hc' (by rw [hcong]; exact hK)
  refine ⟨{ s with
      processes := saveRsp s
      current_process := nextCursor (saveRsp s) s.current_process
      cr3 := (saveRsp s (nextCursor (saveRsp s) s.current_process).toNat).cr3
      rsp := (saveRsp s (nextCursor (saveRsp s) s.current_process).toNat).rsp },
    j0, ?_, by rw [← hcong]; exact hj0, ?_, rfl, rfl⟩
  · unfold schedule
    simp only [hloop fuel hfuel]
  · show nextCursor (saveRsp s) s.current_process = _
    rw [hnext, slotAt_congr (saveRsp s) s.processes (saveRsp_active s)]

theorem map_range_succ_shift (g : Nat → Int) (n : Nat) :
    (List.range (n + 1)).map g = g 0 :: (List.range n).map (fun t => g (t + 1)) := by
  rw [List.range_succ_eq_map, List.map_cons, List.map_map]
  rfl

/-- Calls in a row from the `j`-th Active slot select the following Active slots in cyclic
order. -/
theorem scheduleN_from_slot (fuel : Nat) (hfuel : MAX_PROCESSES ≤ fuel) :
    ∀ (n : Nat) (s : Kernel) (j : Nat), j < activeCount s.processes →
      s.current_process = (slotAt s.processes j : Int) →
      ∃ s1, scheduleN fuel n s
          = some ((List.range n).map
              (fun t => (slotAt s.processes ((j + 1 + t) % activeCount s.processes) : Int)), s1) ∧
        (∀ i, (s1.processes i).active = (s.processes i).active) ∧
        -1 ≤ s1.current_process ∧ s1.current_process ≤ 9 := by
  intro n
  induction n with
  | zero =>
    intro s j hj hcur
    have := (slotAt_active s.processes j hj).1
    have h10 : slotAt s.processes j < 10 := this
    exact ⟨s, rfl, fun _ => rfl, by omega, by omega⟩
  | succ n ih =>
    intro s j hj hcur
    have h10 : slotAt s.processes j < 10 := (slotAt_active s.processes j hj).1
    have hact := saveRsp_active s
    obtain ⟨s1, -, hrun, -, -, hnext, hprocs⟩ := schedule_step s fuel (by omega) (by omega)
      (by omega) hfuel
    have hK1 : activeCount s1.processes = activeCount s.processes := by
      rw [hprocs]; exact activeCount_congr _ _ hact
    have hslot : ∀ m, slotAt s1.processes m = slotAt s.processes m := by
      intro m; rw [hprocs]; exact slotAt_congr _ _ hact m
    have hj1 : (j + 1) % activeCount s.processes < activeCount s.processes :=
      Nat.mod_lt _ (by omega)
    have hcur1 : s1.current_process
        = (slotAt s.processes ((j + 1) % activeCount s.processes) : Int) := by
      rw [hnext, hcur, ← slotAt_congr (saveRsp s) s.processes hact j,
        nextCursor_slotAt (saveRsp s) j (by rw [activeCount_congr _ _ hact]; exact hj),
        activeCount_congr _ _ hact, slotAt_congr _ _ hact]
    obtain ⟨s2, hrun2, hact2, hlo, hhi⟩ := ih s1 ((j + 1) % activeCount s.processes)
      (by rw [hK1]; exact hj1) (by rw [hslot]; exact hcur1)
    refine ⟨s2, ?_, fun i => by rw [hact2 i, hprocs]; exact hact i, hlo, hhi⟩
    rw [map_range_succ_shift]
    simp only [scheduleN, hrun, hrun2, hK1, hslot, hcur1, Nat.add_zero]
    have hidx : ∀ t, ((j + 1) % activeCount s.processes + 1 + t) % activeCount s.processes
        = (j + 1 + (t + 1)) % activeCount s.processes := by
      intro t
      rw [Nat.add_assoc, Nat.mod_add_mod, Nat.add_comm 1 t]
    simp only [hidx]

/-- Calls in a row from any cursor in range: the first call lands on some Active slot, the
`j0`-th, and the calls select the Active slots in cyclic order from there. -/
theorem scheduleN_from_any (s : Kernel) (fuel : Nat) (hc : -1 ≤ s.current_process)
    (hc' : s.current_process ≤ 9) (hK : 1 ≤ activeCount s.processes)
    (hfuel : MAX_PROCESSES ≤ fuel) :
    ∃ j0, j0 < activeCount s.processes ∧ ∀ n, ∃ s1,
      scheduleN fuel n s
        = some ((List.range n).map
            (fun t => (slotAt s.processes ((j0 + t) % activeCount s.processes) : Int)), s1) ∧
      (∀ i, (s1.processes i).active = (s.processes i).active) ∧
      -1 ≤ s1.current_process ∧ s1.current_process ≤ 9 := by
  have hact := saveRsp_active s
  obtain ⟨s1, j0, hrun, hj0, hcur, -, hprocs⟩ := schedule_step s fuel hc hc' hK hfuel
  have hK1 : activeCount s1.processes = activeCount s.processes := by
    rw [hprocs]; exact activeCount_congr _ _ hact
  have hslot : ∀ m, slotAt s1.processes m = slotAt s.processes m := by
    intro m; rw [hprocs]; exact slotAt_congr _ _ hact m
  refine ⟨j0, hj0, ?_⟩
  intro n
  cases n with
  | zero => exact ⟨s, rfl, fun _ => rfl, hc, hc'⟩
  | succ n =>
    obtain ⟨s2, hrun2, hact2, hlo, hhi⟩ := scheduleN_from_slot fuel hfuel n s1 j0
      (by rw [hK1]; exact hj0) (by rw [hslot]; exact hcur)
    refine ⟨s2, ?_, fun i => by rw [hact2 i, hprocs]; exact hact i, hlo, hhi⟩
    rw [map_range_succ_shift]
    simp only [scheduleN, hrun, hrun2, hK1, hslot, hcur, Nat.add_zero, Nat.mod_eq_of_lt hj0]
    have hidx : ∀ t, (j0 + 1 + t) % activeCount s.processes
        = (j0 + (t + 1)) % activeCount s.processes := by
      intro t; rw [Nat.add_assoc, Nat.add_comm 1 t]
    simp only [hidx]
/-- Adding the same offset modulo `K` to two numbers below `K` keeps them apart. -/
theorem add_mod_cancel_lt (K j0 x y : Nat) (hx : x < K) (hy : y < K)
    (h : (j0 + x) % K = (j0 + y) % K) : x = y := by
  have h1 : x % K = y % K := Nat.ModEq.add_left_cancel' j0 h
  rwa [Nat.mod_eq_of_lt hx, Nat.mod_eq_of_lt hy] at h1

/-- One full turn through the cyclic order, starting anywhere, meets every Active slot and
meets none twice. -/
theorem cyclic_turn (procs : Nat → Process) (j0 : Nat) (hj0 : j0 < activeCount procs) :
    ((List.range (activeCount procs)).map
      (fun t => (slotAt procs ((j0 + t) % activeCount procs) : Int))).Nodup ∧
    (∀ i, i < MAX_PROCESSES → ((procs i).active = true ↔
      (i : Int) ∈ (List.range (activeCount procs)).map
        (fun t => (slotAt procs ((j0 + t) % activeCount procs) : Int)))) ∧
    ∀ x ∈ (List.range (activeCount procs)).map
        (fun t => (slotAt procs ((j0 + t) % activeCount procs) : Int)),
      ∃ i, i < MAX_PROCESSES ∧ x = (i : Int) ∧ (procs i).active = true := by
  have hK : 0 < activeCount procs := by omega
  refine ⟨?_, ?_, ?_⟩
  · apply List.Nodup.map_on _ (List.nodup_range _)
    intro x hx y hy hxy
    rw [List.mem_range] at hx hy
    have hs : slotAt procs ((j0 + x) % activeCount procs)
        = slotAt procs ((j0 + y) % activeCount procs) := by exact_mod_cast hxy
    exact add_mod_cancel_lt _ j0 x y hx hy
      (slotAt_inj procs _ _ (Nat.mod_lt _ hK) (Nat.mod_lt _ hK) hs)
  · intro i hi
    rw [List.mem_map]
    constructor
    · intro hact
      obtain ⟨m, hm, he⟩ := exists_slotAt procs i hi hact
      refine ⟨(m + (activeCount procs - j0)) % activeCount procs,
        List.mem_range.2 (Nat.mod_lt _ hK), ?_⟩
      have hidx : (j0 + (m + (activeCount procs - j0)) % activeCount procs) % activeCount procs
          = m := by
        rw [Nat.add_mod_mod,
          show j0 + (m + (activeCount procs - j0)) = m + activeCount procs by omega,
          Nat.add_mod_right, Nat.mod_eq_of_lt hm]
      rw [hidx, he]
    · rintro ⟨t, -, ht⟩
      have hs : slotAt procs ((j0 + t) % activeCount procs) = i := by exact_mod_cast ht
      rw [← hs]
      exact (slotAt_active procs _ (Nat.mod_lt _ hK)).2
  · intro x hx
    obtain ⟨t, -, ht⟩ := List.mem_map.1 hx
    obtain ⟨hlt, hact⟩ := slotAt_active procs ((j0 + t) % activeCount procs) (Nat.mod_lt _ hK)
    exact ⟨_, hlt, ht.symm, hact⟩

/-- What one call of `schedule` does to the PCB table. -/
theorem schedule_processes (s s1 : Kernel) (fuel : Nat) (h : schedule fuel s = some s1) :
    s1.processes = saveRsp s := by
  unfold schedule at h
  simp only at h
  split at h
  · exact absurd h (by simp)
  · injection h with h
    rw [← h]

/-! ## C17 -/

/-- C17: `schedule` never changes the `active` flag or the `cr3` of any PCB; and with k >= 1
Active slots, the cursor in -1..MAX_PROCESSES-1 and MAX_PROCESSES loop turns or more per call,
after any number m of calls the next k calls all return, select Active slots only, select no
slot twice and select every Active slot; and in any run of calls the selection number t + k is the selection number
t, so the selected indices repeat with period k. -/
theorem C17_round_robin_fairness (s : Kernel) (fuel : Nat) :
    (∀ s1, schedule fuel s = some s1 → ∀ i,
      (s1.processes i).active = (s.processes i).active ∧
      (s1.processes i).cr3 = (s.processes i).cr3) ∧
    (-1 ≤ s.current_process → s.current_process < (MAX_PROCESSES : Int) →
      1 ≤ activeCount s.processes → MAX_PROCESSES ≤ fuel →
      (∀ m, ∃ l sm sel s2, scheduleN fuel m s = some (l, sm) ∧
        scheduleN fuel (activeCount s.processes) sm = some (sel, s2) ∧
        sel.length = activeCount s.processes ∧ sel.Nodup ∧
        (∀ i, i < MAX_PROCESSES → ((s.processes i).active = true ↔ (i : Int) ∈ sel)) ∧
        ∀ x ∈ sel, ∃ i, i < MAX_PROCESSES ∧ x = (i : Int) ∧ (s.processes i).active = true) ∧
      (∀ n, ∃ l sn, scheduleN fuel n s = some (l, sn) ∧ l.length = n ∧
        ∀ t, t + activeCount s.processes < n → l[t + activeCount s.processes]? = l[t]?)) := by
  constructor
  · intro s1 h i
    rw [schedule_processes s s1 fuel h]
    exact ⟨saveRsp_active s i, saveRsp_cr3 s i⟩
  · intro hc hc' hK hfuel
    have hc9 : s.current_process ≤ 9 := by
      have h10 : ((MAX_PROCESSES : Nat) : Int) = 10 := rfl
      rw [h10] at hc'; omega
    obtain ⟨j0, hj0, hruns⟩ := scheduleN_from_any s fuel hc hc9 hK hfuel
    constructor
    · intro m
      obtain ⟨sm, hm, hactm, hlo, hhi⟩ := hruns m
      have hKm : activeCount sm.processes = activeCount s.processes :=
        activeCount_congr _ _ hactm
      obtain ⟨j1, hj1, hruns1⟩ := scheduleN_from_any sm fuel hlo hhi (by rw [hKm]; exact hK) hfuel
      obtain ⟨s2, h2, -, -, -⟩ := hruns1 (activeCount s.processes)
      obtain ⟨hnd, hcov, honly⟩ := cyclic_turn sm.processes j1 hj1
      rw [hKm] at hnd hcov honly h2
      exact ⟨_, sm, _, s2, hm, h2, by rw [List.length_map, List.length_range], hnd,
        fun i hi => by rw [← hactm i]; exact hcov i hi,
        fun x hx => by
          obtain ⟨i, hi, hxi, hact⟩ := honly x hx
          exact ⟨i, hi, hxi, by rw [← hactm i]; exact hact⟩⟩
    · intro n
      obtain ⟨sn, hn, -, -, -⟩ := hruns n
      refine ⟨_, sn, hn, by rw [List.length_map, List.length_range], ?_⟩
      intro t ht
      have ht' : t < n := by omega
      rw [List.getElem?_map, List.getElem?_map, List.getElem?_range ht, List.getElem?_range ht',
        Option.map_some', Option.map_some',
        show j0 + (t + activeCount s.processes) = j0 + t + activeCount s.processes by omega,
        Nat.add_mod_right]

/-- C17 at `table257` (Active slots 2, 5, 7, cursor 5): three calls in a row return, select no
slot twice and select every Active slot. -/
theorem C17_round_robin_fairness_witness :
    ∃ l sm sel s2, scheduleN 10 0 table257 = some (l, sm) ∧
      scheduleN 10 (activeCount table257.processes) sm = some (sel, s2) ∧
      sel.length = activeCount table257.processes ∧ sel.Nodup ∧
      (∀ i, i < MAX_PROCESSES → ((table257.processes i).active = true ↔ (i : Int) ∈ sel)) ∧
      ∀ x ∈ sel, ∃ i, i < MAX_PROCESSES ∧ x = (i : Int) ∧ (table257.processes i).active = true :=
  ((C17_round_robin_fairness table257 10).2 (by decide) (by decide) (by decide) (by decide)).1 0

end SimpleOS
